import Mathlib

/-!
Verification development for the personal schedule builder: a shallow
embedding of the client-side state synchronization and data-versioning
subsystem (schema migrator, storage/migration helpers, mutation API,
debounced persistence) together with proofs of the specified properties.

Sources embedded here:
  - app/page.tsx (localStorage era, APP_VERSION 1.0.3): migrateData and the
    mutation callbacks;
  - app/page.tsx (Supabase era, APP_DATA_VERSION 1.0.5): ScheduleApp
    loadData, updateCurrentUserData, the mutation callbacks and debounce;
  - lib/schedule-db.ts: getUserData, upsertUserData,
    migrateLocalStorageToDatabase;
  - lib/schedule-data.ts: initialProjectsData, generateTimeSlots,
    allTimeSlots;
  - components/schedule-builder/editable-field.tsx: handleSave.

JavaScript values parsed from JSON are modelled by the inductive type
`Json`; JS objects keep their key order, so objects are association lists.
JS numbers are modelled by `Int` (a NaN produced by arithmetic on a
non-numeric operand is modelled as 0: the code only ever observes such a
value through `typeof x`, which is "number" for NaN as well).  A JS
expression that throws a TypeError is modelled by `Option.none`.
-/

set_option autoImplicit false

universe u v

/-- A JSON value as produced by JSON.parse: null, booleans, numbers,
strings, arrays and objects.  Object fields are kept in insertion order,
matching JS object key order. -/
inductive Json where
  | null : Json
  | bool (b : Bool) : Json
  | num (n : Int) : Json
  | str (s : String) : Json
  | arr (elems : List Json) : Json
  | obj (fields : List (String × Json)) : Json

/-- JS truthiness: null, false, 0 and the empty string are falsy, every
array and object (including empty ones) is truthy. -/
def truthy : Json → Bool
  | .null => false
  | .bool b => b
  | .num n => n != 0
  | .str s => s != ""
  | .arr _ => true
  | .obj _ => true

/-- Property read on an association list (JS object): the value of the
first field with the given key, or `none` when the key is absent
(JS `undefined`). -/
def alookup {α : Type u} : List (String × α) → String → Option α
  | [], _ => none
  | (k, v) :: rest, key => if k == key then some v else alookup rest key

/-- Property write on an association list (JS object): replaces the first
field with the given key in place, or appends a new field at the end.
This is exactly how a JS property assignment or a spread-then-override
object literal affects key order. -/
def aset {α : Type u} : List (String × α) → String → α → List (String × α)
  | [], key, v => [(key, v)]
  | (k, w) :: rest, key, v =>
      if k == key then (k, v) :: rest else (k, w) :: aset rest key v

/-- Entry-preserving rewrite of every field of a JS object, the shape of
the `Object.entries(prev.schedule).reduce((acc, [slotId, tasks]) => ...)`
pattern used by the mutation callbacks: keys and their order are kept. -/
def amap {α : Type u} {β : Type v} (f : String → α → β) :
    List (String × α) → List (String × β)
  | [] => []
  | (k, v) :: rest => (k, f k v) :: amap f rest

/-- JS member access `o[k]` / `o.k`.  The outer `none` is a thrown
TypeError (reading a property of `null`); `some none` is `undefined`.
Arrays and strings expose their `length`; the code never reads numeric
indices through this helper. -/
def jsMember : Json → String → Option (Option Json)
  | .null, _ => none
  | .obj fs, k => some (alookup fs k)
  | .arr xs, k => some (if k == "length" then some (.num xs.length) else none)
  | .str s, k => some (if k == "length" then some (.num s.length) else none)
  | .bool _, _ => some none
  | .num _, _ => some none

/-- Member access on a receiver already known not to be null. -/
def jsMemberD (j : Json) (k : String) : Option Json :=
  (jsMember j k).getD none

/-- The JS idiom `x || d` where `x` may be `undefined` (`none`). -/
def truthyOrD (v : Option Json) (d : Json) : Json :=
  match v with
  | some j => if truthy j then j else d
  | none => d

/-- Boolean coercion `Boolean(x)` of a possibly-undefined value. -/
def truthyOpt (v : Option Json) : Bool :=
  match v with
  | some j => truthy j
  | none => false

/-- The JS spread `{ ...data }`: objects copy their fields, arrays and
strings contribute index-keyed entries, primitives contribute nothing. -/
def jsSpread : Json → List (String × Json)
  | .obj fs => fs
  | .arr xs => xs.enum.map (fun p => (toString p.1, p.2))
  | .str s => s.data.enum.map (fun p => (toString p.1, .str (String.mk [p.2])))
  | _ => []

/-- Tests `typeof x === "number"` on a possibly-undefined value. -/
def isNumberField (v : Option Json) : Bool :=
  match v with
  | some (.num _) => true
  | _ => false

/-- Property assignment `o.k = v` for a JS value used as an object
(spreading a primitive first, as the code always does before assigning). -/
def setFieldJ (j : Json) (k : String) (v : Json) : Json :=
  .obj (aset (jsSpread j) k v)

/-- String.prototype.trim: strips whitespace from both ends. -/
def jsTrim (s : String) : String :=
  String.mk (((s.data.dropWhile Char.isWhitespace).reverse.dropWhile
    Char.isWhitespace).reverse)

/-- Number.prototype behaviour of `String(n).padStart(2, "0")` for the
hour values used by generateTimeSlots. -/
def pad2 (n : Nat) : String :=
  if n < 10 then "0" ++ toString n else toString n

/-! ## Typed data model (types/schedule.ts) -/

/-- SubTask from types/schedule.ts. -/
structure SubTask where
  id : String
  text : String
  completed : Bool
deriving DecidableEq, Repr

/-- Project from types/schedule.ts. -/
structure Project where
  id : String
  name : String
  subTasks : List SubTask
  color : String
deriving DecidableEq, Repr

/-- ScheduledTask from types/schedule.ts: a snapshot copy of a project
taken when it is dropped onto a time slot. -/
structure ScheduledTask where
  id : String
  projectId : String
  projectName : String
  projectColor : String
  originalProjectSubTasks : List SubTask
deriving DecidableEq, Repr

/-- TimeSlot from types/schedule.ts (the section field is renamed because
section is a Lean keyword). -/
structure TimeSlot where
  id : String
  label : String
  sectionName : String
deriving DecidableEq, Repr

/-- ScheduleData = Record(string, ScheduledTask[]): a JS object mapping
slot ids to task lists, modelled as an ordered association list. -/
abbrev ScheduleData := List (String × List ScheduledTask)

/-- UserScheduleBundle from types/schedule.ts: the unit of persistence. -/
structure UserScheduleBundle where
  projects : List Project
  schedule : ScheduleData
  nextColorIndex : Nat
  createdAt : String
  updatedAt : String
  appVersion : String
deriving DecidableEq, Repr

/-! ## Reference data (lib/schedule-data.ts) -/

/-- generateTimeSlots from lib/schedule-data.ts: one slot per hour from
startHour to endHour inclusive. -/
def generateTimeSlots (sectionName : String) (startHour endHour : Nat) :
    List TimeSlot :=
  (List.range (endHour + 1 - startHour)).map (fun i =>
    let hour := startHour + i
    { id := "slot-" ++ sectionName ++ "-" ++ pad2 hour
      label := pad2 hour ++ ":00 - " ++ pad2 (hour + 1) ++ ":00"
      sectionName := sectionName })

/-- allTimeSlots from lib/schedule-data.ts: morning 8-11, afternoon 12-17,
evening 18-23. -/
def allTimeSlots : List TimeSlot :=
  generateTimeSlots "morning" 8 11 ++ generateTimeSlots "afternoon" 12 17 ++
    generateTimeSlots "evening" 18 23

/-- The ids of the sixteen known time slots. -/
def allTimeSlotIds : List String := allTimeSlots.map TimeSlot.id

/-- initialProjectsData from lib/schedule-data.ts. -/
def initialProjectsData : List Project :=
  [ { id := "proj-1", name := "Q3 Marketing Campaign Launch"
      subTasks :=
        [ { id := "st-1-1", text := "Finalize ad copy", completed := false }
        , { id := "st-1-2", text := "Approve visual assets", completed := false }
        , { id := "st-1-3", text := "Schedule social media posts", completed := false } ]
      color := "bg-sky-500 text-white" }
  , { id := "proj-2", name := "Website Redesign Project"
      subTasks :=
        [ { id := "st-2-1", text := "Complete user research", completed := false }
        , { id := "st-2-2", text := "Review wireframes", completed := false }
        , { id := "st-2-3", text := "Develop homepage prototype", completed := false } ]
      color := "bg-green-500 text-white" }
  , { id := "proj-3", name := "Client Onboarding Process"
      subTasks :=
        [ { id := "st-3-1", text := "Map current workflow", completed := false }
        , { id := "st-3-2", text := "Identify pain points", completed := false }
        , { id := "st-3-3", text := "Draft new procedures", completed := false } ]
      color := "bg-amber-500 text-white" }
  , { id := "proj-4", name := "Sales Team Training"
      subTasks :=
        [ { id := "st-4-1", text := "Create training modules", completed := false }
        , { id := "st-4-2", text := "Design assessment tests", completed := false }
        , { id := "st-4-3", text := "Schedule training sessions", completed := false } ]
      color := "bg-purple-500 text-white" }
  ]

/-- The 12-entry project color palette (identical in both versions of
app/page.tsx). -/
def projectColors : List String :=
  [ "bg-blue-500 text-white"
  , "bg-pink-500 text-white"
  , "bg-amber-500 text-white"
  , "bg-rose-500 text-white"
  , "bg-sky-500 text-white"
  , "bg-purple-500 text-white"
  , "bg-green-500 text-white"
  , "bg-fuchsia-500 text-white"
  , "bg-teal-500 text-white"
  , "bg-cyan-500 text-white"
  , "bg-lime-500 text-white"
  , "bg-orange-500 text-white" ]

/-- JS array indexing projectColors[i] for an in-range index; the default
is never reached because the index is always reduced mod 12. -/
def paletteColor (i : Nat) : String :=
  projectColors.getD (i % projectColors.length) ""

/-! ## Mutation API (app/page.tsx, Supabase era, ScheduleApp callbacks)

Each callback routes through updateCurrentUserData, which applies the
updater to the previous bundle and stamps a fresh updatedAt.  Fresh ids
(crypto.randomUUID) and timestamps (new Date().toISOString()) are
nondeterministic in JS, so the embedding takes them as parameters. -/

/-- MAX_TASKS_PER_SLOT from app/page.tsx. -/
def MAX_TASKS_PER_SLOT : Nat := 3

/-- updateCurrentUserData (app/page.tsx, Supabase era): applies the
updater and returns the new state with a fresh updatedAt timestamp. -/
def updateCurrentUserData (now : String)
    (updater : UserScheduleBundle → UserScheduleBundle)
    (prev : UserScheduleBundle) : UserScheduleBundle :=
  { updater prev with updatedAt := now }

/-- handleProjectNameChange: renames the project and propagates the new
name to every ScheduledTask with a matching projectId in every slot. -/
def handleProjectNameChange (now projectId newName : String)
    (b : UserScheduleBundle) : UserScheduleBundle :=
  updateCurrentUserData now (fun prev =>
    { prev with
      projects := prev.projects.map (fun p =>
        if p.id == projectId then { p with name := newName } else p)
      schedule := amap (fun _ tasks => tasks.map (fun t =>
        if t.projectId == projectId then { t with projectName := newName }
        else t)) prev.schedule }) b

/-- updateSubTasksList helper of handleSubTaskTextChange. -/
def updateSubTasksList (subTaskId newText : String) (subTasks : List SubTask) :
    List SubTask :=
  subTasks.map (fun st =>
    if st.id == subTaskId then { st with text := newText } else st)

/-- handleSubTaskTextChange: edits the sub-task text on the project and on
the snapshot copies of every ScheduledTask with a matching projectId. -/
def handleSubTaskTextChange (now projectId subTaskId newText : String)
    (b : UserScheduleBundle) : UserScheduleBundle :=
  updateCurrentUserData now (fun prev =>
    { prev with
      projects := prev.projects.map (fun p =>
        if p.id == projectId then
          { p with subTasks := updateSubTasksList subTaskId newText p.subTasks }
        else p)
      schedule := amap (fun _ tasks => tasks.map (fun t =>
        if t.projectId == projectId then
          { t with originalProjectSubTasks :=
              updateSubTasksList subTaskId newText t.originalProjectSubTasks }
        else t)) prev.schedule }) b

/-- toggleSubTaskCompletion helper of handleSubTaskToggle: each matching
entry gets the negation of its own previous completed flag. -/
def toggleSubTaskCompletion (subTaskId : String) (subTasks : List SubTask) :
    List SubTask :=
  subTasks.map (fun st =>
    if st.id == subTaskId then { st with completed := !st.completed } else st)

/-- handleSubTaskToggle: toggles the sub-task on the project and on the
snapshot copies of every ScheduledTask with a matching projectId. -/
def handleSubTaskToggle (now projectId subTaskId : String)
    (b : UserScheduleBundle) : UserScheduleBundle :=
  updateCurrentUserData now (fun prev =>
    { prev with
      projects := prev.projects.map (fun p =>
        if p.id == projectId then
          { p with subTasks := toggleSubTaskCompletion subTaskId p.subTasks }
        else p)
      schedule := amap (fun _ tasks => tasks.map (fun t =>
        if t.projectId == projectId then
          { t with originalProjectSubTasks :=
              toggleSubTaskCompletion subTaskId t.originalProjectSubTasks }
        else t)) prev.schedule }) b

/-- handleRemoveProject: deletes the project and cascade-deletes every
ScheduledTask referencing it from every slot. -/
def handleRemoveProject (now projectId : String) (b : UserScheduleBundle) :
    UserScheduleBundle :=
  updateCurrentUserData now (fun prev =>
    { prev with
      projects := prev.projects.filter (fun p => p.id != projectId)
      schedule := amap (fun _ tasks =>
        tasks.filter (fun t => t.projectId != projectId)) prev.schedule }) b

/-- handleDeleteTaskFromSchedule: prev.schedule[fromSlotId].filter throws
a TypeError when fromSlotId is not a key of the schedule (modelled by
none); otherwise the named slot is filtered in place. -/
def handleDeleteTaskFromSchedule (now taskId fromSlotId : String)
    (b : UserScheduleBundle) : Option UserScheduleBundle :=
  match alookup b.schedule fromSlotId with
  | none => none
  | some tasks =>
      some (updateCurrentUserData now (fun prev =>
        { prev with
          schedule := aset prev.schedule fromSlotId
            (tasks.filter (fun t => t.id != taskId)) }) b)

/-- The expression schedule[slotId] || [] used by handleDragEnd. -/
def slotOrEmpty (s : ScheduleData) (slotId : String) : List ScheduledTask :=
  (alookup s slotId).getD []

/-- handleDragEnd, project-to-time-slot branch: rejects with an alert when
the target slot already holds MAX_TASKS_PER_SLOT tasks, otherwise appends
a snapshot copy of the dragged project.  The Bool result records whether
the user-visible alert fired.  The shallow copies ({...st}) of the
sub-tasks are identities in a pure value model. -/
def dragProjectToSlot (now newTaskId : String) (project : Project)
    (overId : String) (b : UserScheduleBundle) : UserScheduleBundle × Bool :=
  if MAX_TASKS_PER_SLOT ≤ (slotOrEmpty b.schedule overId).length then
    (b, true)
  else
    let newTask : ScheduledTask :=
      { id := newTaskId
        projectId := project.id
        projectName := project.name
        projectColor := project.color
        originalProjectSubTasks := project.subTasks }
    (updateCurrentUserData now (fun prev =>
      { prev with
        schedule := aset prev.schedule overId
          (slotOrEmpty prev.schedule overId ++ [newTask]) }) b, false)

/-- handleDragEnd, scheduled-task-to-time-slot branch: silent no-op when
source and target coincide, alert-and-reject when the target slot is full,
otherwise the task is removed from its source slot and appended to the
target slot. -/
def dragMoveTask (now : String) (task : ScheduledTask)
    (fromSlotId overId : String) (b : UserScheduleBundle) :
    UserScheduleBundle × Bool :=
  if fromSlotId == overId then (b, false)
  else if MAX_TASKS_PER_SLOT ≤ (slotOrEmpty b.schedule overId).length then
    (b, true)
  else
    (updateCurrentUserData now (fun prev =>
      let s1 := aset prev.schedule fromSlotId
        ((slotOrEmpty prev.schedule fromSlotId).filter
          (fun t => t.id != task.id))
      { prev with
        schedule := aset s1 overId (slotOrEmpty s1 overId ++ [task]) }) b,
     false)

/-- A drag-and-drop mutation as dispatched by handleDragEnd: either
scheduling a project into a slot or moving a scheduled task to a slot. -/
inductive DragOp where
  | scheduleOp (now newTaskId : String) (project : Project) (overId : String)
  | moveOp (now : String) (task : ScheduledTask) (fromSlotId overId : String)

/-- Dispatch of a single drag operation; the Bool records whether the
operation was rejected with a user-visible alert. -/
def applyDragOp (op : DragOp) (b : UserScheduleBundle) :
    UserScheduleBundle × Bool :=
  match op with
  | .scheduleOp now newTaskId project overId =>
      dragProjectToSlot now newTaskId project overId b
  | .moveOp now task fromSlotId overId =>
      dragMoveTask now task fromSlotId overId b

/-- A sequence of drag operations applied left to right. -/
def applyDragOps (ops : List DragOp) (b : UserScheduleBundle) :
    UserScheduleBundle :=
  ops.foldl (fun x op => (applyDragOp op x).1) b

/-- Every slot of the schedule holds at most MAX_TASKS_PER_SLOT tasks. -/
def slotCapOK (b : UserScheduleBundle) : Prop :=
  ∀ e ∈ b.schedule, e.2.length ≤ MAX_TASKS_PER_SLOT

instance (b : UserScheduleBundle) : Decidable (slotCapOK b) := by
  unfold slotCapOK; infer_instance

/-! ## Inline rename flow (editable-field.tsx + project-card.tsx) -/

/-- handleSave from components/schedule-builder/editable-field.tsx: the
edited value is saved (trimmed) only when it differs from the trimmed
initial value and its trimmed form is nonempty; otherwise nothing is
saved and the field reverts. -/
def editableFieldSave (currentValue initialValue : String) : Option String :=
  if jsTrim currentValue != jsTrim initialValue &&
      jsTrim currentValue != "" then
    some (jsTrim currentValue)
  else none

/-- The rename-project flow: the EditableField on a project card has
initialValue = project.name and onSave wired to handleProjectNameChange
(project-card.tsx); an empty or unchanged edit never reaches the
callback. -/
def renameProjectField (now projectId raw : String)
    (b : UserScheduleBundle) : UserScheduleBundle :=
  let initial :=
    ((b.projects.find? (fun p => p.id == projectId)).map Project.name).getD ""
  match editableFieldSave raw initial with
  | none => b
  | some newName => handleProjectNameChange now projectId newName b

/-! ## Association-list lemmas (JS object get/set semantics) -/

theorem alookup_amap {α : Type u} {β : Type v} (f : String → α → β)
    (l : List (String × α)) (k : String) :
    alookup (amap f l) k = (alookup l k).map (f k) := by
  induction l with
  | nil => rfl
  | cons e rest ih =>
      obtain ⟨a, v⟩ := e
      cases h : (a == k) with
      | true =>
          have ha : a = k := by simpa using h
          subst ha
          simp [amap, alookup, h]
      | false => simp [amap, alookup, h, ih]

theorem alookup_mem {α : Type u} {l : List (String × α)} {k : String} {v : α}
    (h : alookup l k = some v) : (k, v) ∈ l := by
  induction l with
  | nil => simp [alookup] at h
  | cons e rest ih =>
      obtain ⟨a, w⟩ := e
      simp only [alookup] at h
      cases hb : (a == k) with
      | true =>
          have ha : a = k := by simpa using hb
          rw [hb] at h
          simp only [if_true] at h
          cases h
          subst ha
          exact List.mem_cons_self _ _
      | false =>
          rw [hb] at h
          simp only [Bool.false_eq_true, if_false] at h
          exact List.mem_cons_of_mem _ (ih h)

theorem mem_aset {α : Type u} {l : List (String × α)} {k : String} {v : α}
    {e : String × α} (h : e ∈ aset l k v) : e = (k, v) ∨ e ∈ l := by
  induction l with
  | nil => simpa [aset] using h
  | cons p rest ih =>
      obtain ⟨a, w⟩ := p
      simp only [aset] at h
      cases hb : (a == k) with
      | true =>
          have ha : a = k := by simpa using hb
          rw [hb] at h
          simp only [if_true] at h
          rcases List.mem_cons.mp h with h1 | h1
          · left; rw [h1, ha]
          · right; exact List.mem_cons_of_mem _ h1
      | false =>
          rw [hb] at h
          simp only [Bool.false_eq_true, if_false] at h
          rcases List.mem_cons.mp h with h1 | h1
          · right; rw [h1]; exact List.mem_cons_self _ _
          · rcases ih h1 with h2 | h2
            · left; exact h2
            · right; exact List.mem_cons_of_mem _ h2

theorem alookup_aset_self {α : Type u} (l : List (String × α)) (k : String)
    (v : α) : alookup (aset l k v) k = some v := by
  induction l with
  | nil => simp [aset, alookup]
  | cons p rest ih =>
      obtain ⟨a, w⟩ := p
      cases hb : (a == k) with
      | true => simp [aset, alookup, hb]
      | false => simp [aset, alookup, hb, ih]

theorem alookup_aset_ne {α : Type u} (l : List (String × α)) {k k2 : String}
    (v : α) (h : k2 ≠ k) : alookup (aset l k v) k2 = alookup l k2 := by
  have hk : (k == k2) = false := by
    simpa using fun he => h he.symm
  induction l with
  | nil => simp [aset, alookup, hk]
  | cons p rest ih =>
      obtain ⟨a, w⟩ := p
      cases hb : (a == k) with
      | true =>
          have ha : a = k := by simpa using hb
          subst ha
          simp [aset, alookup, hb, hk]
      | false => simp [aset, alookup, hb, ih]

theorem aset_self {α : Type u} {l : List (String × α)} {k : String} {v : α}
    (h : alookup l k = some v) : aset l k v = l := by
  induction l with
  | nil => simp [alookup] at h
  | cons p rest ih =>
      obtain ⟨a, w⟩ := p
      simp only [alookup] at h
      cases hb : (a == k) with
      | true =>
          rw [hb] at h
          simp only [if_true] at h
          cases h
          simp [aset, hb]
      | false =>
          rw [hb] at h
          simp only [Bool.false_eq_true, if_false] at h
          simp [aset, hb, ih h]

/-! ## Claim C4: cascade deletion -/

/-- C4: after the remove-project operation on P.id, P is absent from the
projects list and no ScheduledTask in any time slot of the schedule has
projectId equal to P.id; tasks referencing other projects remain in their
slots. -/
theorem cascade_delete_C4 (now pid : String) (b : UserScheduleBundle) :
    (∀ p, p ∈ (handleRemoveProject now pid b).projects ↔
       p ∈ b.projects ∧ p.id ≠ pid) ∧
    (∀ k ts, alookup b.schedule k = some ts →
       ∃ ts2, alookup (handleRemoveProject now pid b).schedule k = some ts2 ∧
         ∀ t, t ∈ ts2 ↔ t ∈ ts ∧ t.projectId ≠ pid) := by
  unfold handleRemoveProject updateCurrentUserData
  constructor
  · intro p
    simp [List.mem_filter]
  · intro k ts h
    refine ⟨ts.filter (fun t => t.projectId != pid), ?_, ?_⟩
    · simp [alookup_amap, h]
    · intro t
      simp [List.mem_filter]

def tW4a : ScheduledTask :=
  { id := "t1", projectId := "proj-1", projectName := "A"
    projectColor := "c", originalProjectSubTasks := [] }

def tW4b : ScheduledTask :=
  { id := "t2", projectId := "proj-2", projectName := "B"
    projectColor := "c", originalProjectSubTasks := [] }

def bW4 : UserScheduleBundle :=
  { projects := initialProjectsData
    schedule := [("slot-morning-08", [tW4a, tW4b])]
    nextColorIndex := 4
    createdAt := "c0", updatedAt := "u0", appVersion := "1.0.5" }

theorem cascade_delete_C4_witness :
    (∃ ts2,
       alookup (handleRemoveProject "t9" "proj-1" bW4).schedule
         "slot-morning-08" = some ts2 ∧
       ∀ t, t ∈ ts2 ↔ t ∈ [tW4a, tW4b] ∧ t.projectId ≠ "proj-1") := by
  exact (cascade_delete_C4 "t9" "proj-1" bW4).2 "slot-morning-08" [tW4a, tW4b] rfl

/-! ## Claim C10: delete-task totality boundary -/

/-- C10: handleDeleteTaskFromSchedule throws (none) exactly when
fromSlotId is not a key of the schedule map, unlike the schedule branch of
handleDragEnd which defaults a missing slot to the empty array; when the
slot is present, exactly the tasks with the given id are removed from that
slot and every other slot and every other data field is unchanged
(updatedAt is refreshed, as on every mutation). -/
theorem delete_task_totality_C10 (now taskId fromSlotId : String)
    (b : UserScheduleBundle) :
    (alookup b.schedule fromSlotId = none →
       handleDeleteTaskFromSchedule now taskId fromSlotId b = none) ∧
    (∀ ts, alookup b.schedule fromSlotId = some ts →
       ∃ b2, handleDeleteTaskFromSchedule now taskId fromSlotId b = some b2 ∧
         alookup b2.schedule fromSlotId =
           some (ts.filter (fun t => t.id != taskId)) ∧
         (∀ t, t ∈ ts.filter (fun t => t.id != taskId) ↔
            t ∈ ts ∧ t.id ≠ taskId) ∧
         (∀ k, k ≠ fromSlotId → alookup b2.schedule k = alookup b.schedule k) ∧
         b2.projects = b.projects ∧ b2.nextColorIndex = b.nextColorIndex ∧
         b2.createdAt = b.createdAt ∧ b2.appVersion = b.appVersion) ∧
    (∀ newTaskId project, alookup b.schedule fromSlotId = none →
       (dragProjectToSlot now newTaskId project fromSlotId b).2 = false ∧
       alookup (dragProjectToSlot now newTaskId project fromSlotId b).1.schedule
           fromSlotId =
         some [{ id := newTaskId, projectId := project.id,
                 projectName := project.name, projectColor := project.color,
                 originalProjectSubTasks := project.subTasks }]) := by
  refine ⟨?_, ?_, ?_⟩
  · intro h
    unfold handleDeleteTaskFromSchedule
    rw [h]
  · intro ts h
    unfold handleDeleteTaskFromSchedule
    rw [h]
    refine ⟨_, rfl, ?_, ?_, ?_, rfl, rfl, rfl, rfl⟩
    · exact alookup_aset_self _ _ _
    · intro t
      simp [List.mem_filter]
    · intro k hk
      exact alookup_aset_ne _ _ hk
  · intro newTaskId project h
    unfold dragProjectToSlot
    have hfull : ¬ (MAX_TASKS_PER_SLOT ≤
        (slotOrEmpty b.schedule fromSlotId).length) := by
      simp [slotOrEmpty, h, MAX_TASKS_PER_SLOT]
    rw [if_neg hfull]
    refine ⟨rfl, ?_⟩
    simp only [updateCurrentUserData]
    have := alookup_aset_self b.schedule fromSlotId
      (slotOrEmpty b.schedule fromSlotId ++
        [{ id := newTaskId, projectId := project.id,
           projectName := project.name, projectColor := project.color,
           originalProjectSubTasks := project.subTasks }])
    simpa [slotOrEmpty, h] using this

theorem delete_task_totality_C10_witness :
    handleDeleteTaskFromSchedule "t9" "t1" "slot-unknown" bW4 = none ∧
    (∃ b2, handleDeleteTaskFromSchedule "t9" "t1" "slot-morning-08" bW4 =
         some b2 ∧
       alookup b2.schedule "slot-morning-08" =
         some ([tW4a, tW4b].filter (fun t => t.id != "t1")) ∧
       (∀ t, t ∈ [tW4a, tW4b].filter (fun t => t.id != "t1") ↔
          t ∈ [tW4a, tW4b] ∧ t.id ≠ "t1") ∧
       (∀ k, k ≠ "slot-morning-08" →
          alookup b2.schedule k = alookup bW4.schedule k) ∧
       b2.projects = bW4.projects ∧ b2.nextColorIndex = bW4.nextColorIndex ∧
       b2.createdAt = bW4.createdAt ∧ b2.appVersion = bW4.appVersion) :=
  ⟨(delete_task_totality_C10 "t9" "t1" "slot-unknown" bW4).1 rfl,
   (delete_task_totality_C10 "t9" "t1" "slot-morning-08" bW4).2.1
     [tW4a, tW4b] rfl⟩

/-! ## Claim C9: empty rename rejected -/

/-- C9: invoking the rename-project flow with an empty name is rejected
inside EditableField.handleSave: the callback never fires, the bundle is
unchanged, so P.name and every projectName snapshot keep their previous
values. -/
theorem rename_empty_rejected_C9 (now pid : String) (b : UserScheduleBundle) :
    renameProjectField now pid "" b = b ∧
    (renameProjectField now pid "" b).projects = b.projects ∧
    (∀ k, alookup (renameProjectField now pid "" b).schedule k =
       alookup b.schedule k) := by
  have h : renameProjectField now pid "" b = b := by
    unfold renameProjectField editableFieldSave
    have h0 : jsTrim "" = "" := rfl
    rw [h0]
    simp
  exact ⟨h, by rw [h], fun k => by rw [h]⟩

/-! ## Claim C5: edit propagation to snapshots -/

def pDiv : Project :=
  { id := "p", name := "Proj"
    subTasks := [{ id := "s", text := "x", completed := false }]
    color := "c" }

/-- A bundle the Migrator tolerates but in which a snapshot copy of
sub-task s diverges from the project (copy completed, project not). -/
def bDiv : UserScheduleBundle :=
  { projects := [pDiv]
    schedule :=
      [ ("slot-morning-08",
          [ { id := "t1", projectId := "p", projectName := "Proj"
              projectColor := "c"
              originalProjectSubTasks :=
                [{ id := "s", text := "x", completed := true }] } ]) ]
    nextColorIndex := 1
    createdAt := "c0", updatedAt := "u0", appVersion := "1.0.5" }

/-- C5 counterexample: toggling sub-task s of project p on a bundle whose
snapshot copy of s disagrees with the project leaves the copy at the
negation of its own previous value (false), not at the updated project
value (true), so the copy does not reflect the updated field. -/
theorem propagation_C5_counterexample :
    (handleSubTaskToggle "t9" "p" "s" bDiv).projects =
      [{ id := "p", name := "Proj"
         subTasks := [{ id := "s", text := "x", completed := true }]
         color := "c" }] ∧
    alookup (handleSubTaskToggle "t9" "p" "s" bDiv).schedule
        "slot-morning-08" =
      some [{ id := "t1", projectId := "p", projectName := "Proj"
              projectColor := "c"
              originalProjectSubTasks :=
                [{ id := "s", text := "x", completed := false }] }] ∧
    ¬ (SubTask.completed { id := "s", text := "x", completed := false } =
       SubTask.completed { id := "s", text := "x", completed := true }) :=
  ⟨rfl, rfl, by decide⟩

/-- C5 amended: rename and sub-task text edits propagate the exact new
value to every snapshot with matching projectId; toggling a sub-task sets
each matching snapshot entry to the negation of that entry's own previous
flag (so snapshots that agreed with the project stay in agreement, but
divergent snapshots are not reconciled); tasks with other projectIds are
unchanged. -/
theorem propagation_amended_C5 (now pid sid nm txt : String)
    (b : UserScheduleBundle) (k : String) :
    alookup (handleProjectNameChange now pid nm b).schedule k =
      (alookup b.schedule k).map (List.map (fun t =>
        if t.projectId == pid then { t with projectName := nm } else t)) ∧
    (∀ ts2, alookup (handleProjectNameChange now pid nm b).schedule k =
        some ts2 → ∀ t ∈ ts2, t.projectId = pid → t.projectName = nm) ∧
    (∀ ts ts2, alookup b.schedule k = some ts →
       alookup (handleProjectNameChange now pid nm b).schedule k = some ts2 →
       ∀ t ∈ ts, t.projectId ≠ pid → t ∈ ts2) ∧
    alookup (handleSubTaskTextChange now pid sid txt b).schedule k =
      (alookup b.schedule k).map (List.map (fun t =>
        if t.projectId == pid then
          { t with originalProjectSubTasks :=
              updateSubTasksList sid txt t.originalProjectSubTasks }
        else t)) ∧
    (∀ ts2, alookup (handleSubTaskTextChange now pid sid txt b).schedule k =
        some ts2 → ∀ t ∈ ts2, t.projectId = pid →
        ∀ st ∈ t.originalProjectSubTasks, st.id = sid → st.text = txt) ∧
    alookup (handleSubTaskToggle now pid sid b).schedule k =
      (alookup b.schedule k).map (List.map (fun t =>
        if t.projectId == pid then
          { t with originalProjectSubTasks :=
              toggleSubTaskCompletion sid t.originalProjectSubTasks }
        else t)) := by
  refine ⟨?_, ?_, ?_, ?_, ?_, ?_⟩
  · unfold handleProjectNameChange updateCurrentUserData
    simp [alookup_amap]
  · intro ts2 h2 t ht hpid
    unfold handleProjectNameChange updateCurrentUserData at h2
    simp only [alookup_amap] at h2
    cases h : alookup b.schedule k with
    | none => rw [h] at h2; cases h2
    | some ts =>
        rw [h] at h2
        cases h2
        rcases List.mem_map.mp ht with ⟨t0, _, ht0⟩
        subst ht0
        by_cases hb : t0.projectId = pid
        · simp [hb]
        · simp [hb] at hpid
  · intro ts ts2 h h2 t ht hne
    unfold handleProjectNameChange updateCurrentUserData at h2
    simp only [alookup_amap, h, Option.map_some] at h2
    cases h2
    have hb : (t.projectId == pid) = false := by simpa using hne
    have : t = (fun t : ScheduledTask =>
        if t.projectId == pid then { t with projectName := nm } else t) t := by
      simp [hb]
    rw [this]
    exact List.mem_map_of_mem _ ht
  · unfold handleSubTaskTextChange updateCurrentUserData
    simp [alookup_amap]
  · intro ts2 h2 t ht hpid st hst hsid
    unfold handleSubTaskTextChange updateCurrentUserData at h2
    simp only [alookup_amap] at h2
    cases h : alookup b.schedule k with
    | none => rw [h] at h2; cases h2
    | some ts =>
        rw [h] at h2
        cases h2
        rcases List.mem_map.mp ht with ⟨t0, _, ht0⟩
        subst ht0
        by_cases hb : t0.projectId = pid
        · rw [if_pos (by simpa using hb)] at hst
          simp only [updateSubTasksList] at hst
          rcases List.mem_map.mp hst with ⟨st0, _, hst0⟩
          subst hst0
          by_cases hsb : st0.id = sid
          · simp [hsb]
          · simp [hsb] at hsid
        · simp [hb] at hpid
  · unfold handleSubTaskToggle updateCurrentUserData
    simp [alookup_amap]

theorem propagation_amended_C5_witness :
    (∀ ts2, alookup (handleSubTaskTextChange "t9" "p" "s" "y" bDiv).schedule
        "slot-morning-08" = some ts2 → ∀ t ∈ ts2, t.projectId = "p" →
        ∀ st ∈ t.originalProjectSubTasks, st.id = "s" → st.text = "y") :=
  (propagation_amended_C5 "t9" "p" "s" "n" "y" bDiv "slot-morning-08").2.2.2.2.1

/-! ## Claim C3: slot capacity invariant -/

theorem slotCap_step (op : DragOp) (b : UserScheduleBundle)
    (hb : slotCapOK b) : slotCapOK (applyDragOp op b).1 := by
  cases op with
  | scheduleOp now newTaskId project overId =>
      show slotCapOK (dragProjectToSlot now newTaskId project overId b).1
      unfold dragProjectToSlot
      by_cases hfull : MAX_TASKS_PER_SLOT ≤
          (slotOrEmpty b.schedule overId).length
      · rw [if_pos hfull]; exact hb
      · rw [if_neg hfull]
        intro e he
        simp only [updateCurrentUserData] at he
        rcases mem_aset he with h1 | h1
        · rw [h1]
          simp only [List.length_append, List.length_singleton]
          omega
        · exact hb e h1
  | moveOp now task fromSlotId overId =>
      show slotCapOK (dragMoveTask now task fromSlotId overId b).1
      unfold dragMoveTask
      by_cases hsame : (fromSlotId == overId) = true
      · rw [if_pos hsame]; exact hb
      · rw [if_neg hsame]
        by_cases hfull : MAX_TASKS_PER_SLOT ≤
            (slotOrEmpty b.schedule overId).length
        · rw [if_pos hfull]; exact hb
        · rw [if_neg hfull]
          intro e he
          simp only [updateCurrentUserData] at he
          have hne : overId ≠ fromSlotId := by
            intro h; exact hsame (by simp [h])
          rcases mem_aset he with h1 | h1
          · rw [h1]
            dsimp only
            simp only [slotOrEmpty] at hfull ⊢
            rw [alookup_aset_ne _ _ hne]
            simp only [List.length_append, List.length_singleton]
            omega
          · rcases mem_aset h1 with h2 | h2
            · rw [h2]
              dsimp only
              have hfil : (List.filter (fun t => t.id != task.id)
                  (slotOrEmpty b.schedule fromSlotId)).length ≤
                  (slotOrEmpty b.schedule fromSlotId).length :=
                List.length_filter_le _ _
              have hsrc : (slotOrEmpty b.schedule fromSlotId).length ≤
                  MAX_TASKS_PER_SLOT := by
                unfold slotOrEmpty
                cases hl : alookup b.schedule fromSlotId with
                | none => simp [MAX_TASKS_PER_SLOT]
                | some ts =>
                    simpa using hb (fromSlotId, ts) (alookup_mem hl)
              omega
            · exact hb e h2

/-- C3: along every sequence of schedule-project and move-task operations
starting from a bundle whose slots each hold at most MAX_TASKS_PER_SLOT
tasks, every slot keeps at most MAX_TASKS_PER_SLOT tasks; an attempt to
schedule into a full slot, or to move a task into a full slot different
from its source slot, is rejected with a user-visible alert and leaves the
whole bundle unchanged. -/
theorem slot_capacity_C3 :
    (∀ (ops : List DragOp) (b : UserScheduleBundle),
       slotCapOK b → slotCapOK (applyDragOps ops b)) ∧
    (∀ (now newTaskId : String) (project : Project) (overId : String)
       (b : UserScheduleBundle),
       MAX_TASKS_PER_SLOT ≤ (slotOrEmpty b.schedule overId).length →
       dragProjectToSlot now newTaskId project overId b = (b, true)) ∧
    (∀ (now : String) (task : ScheduledTask) (fromSlotId overId : String)
       (b : UserScheduleBundle),
       fromSlotId ≠ overId →
       MAX_TASKS_PER_SLOT ≤ (slotOrEmpty b.schedule overId).length →
       dragMoveTask now task fromSlotId overId b = (b, true)) := by
  refine ⟨?_, ?_, ?_⟩
  · intro ops
    induction ops with
    | nil => intro b hb; exact hb
    | cons op rest ih =>
        intro b hb
        exact ih _ (slotCap_step op b hb)
  · intro now newTaskId project overId b hfull
    unfold dragProjectToSlot
    rw [if_pos hfull]
  · intro now task fromSlotId overId b hne hfull
    unfold dragMoveTask
    rw [if_neg (by simpa using hne), if_pos hfull]

def tW3 (n : String) : ScheduledTask :=
  { id := n, projectId := "proj-1", projectName := "A", projectColor := "c"
    originalProjectSubTasks := [] }

def bW3 : UserScheduleBundle :=
  { projects := initialProjectsData
    schedule := [("slot-morning-08", [tW3 "t1", tW3 "t2", tW3 "t3"]),
                 ("slot-morning-09", [])]
    nextColorIndex := 4
    createdAt := "c0", updatedAt := "u0", appVersion := "1.0.5" }

theorem slot_capacity_C3_witness :
    slotCapOK (applyDragOps
      [ DragOp.scheduleOp "t9" "id1"
          { id := "proj-9", name := "P9", subTasks := [], color := "c9" }
          "slot-morning-09"
      , DragOp.moveOp "t9" (tW3 "t1") "slot-morning-08" "slot-morning-09" ]
      bW3) ∧
    dragProjectToSlot "t9" "id2"
      { id := "proj-9", name := "P9", subTasks := [], color := "c9" }
      "slot-morning-08" bW3 = (bW3, true) ∧
    dragMoveTask "t9" (tW3 "t4") "slot-morning-09" "slot-morning-08" bW3 =
      (bW3, true) :=
  ⟨slot_capacity_C3.1 _ bW3 (by decide),
   slot_capacity_C3.2.1 "t9" "id2" _ "slot-morning-08" bW3 (by decide),
   slot_capacity_C3.2.2 "t9" (tW3 "t4") "slot-morning-09" "slot-morning-08"
     bW3 (by decide) (by decide)⟩

/-! ## Schema Migrator (app/page.tsx, localStorage era, migrateData)

migrateData repairs an untrusted parsed payload.  crypto.randomUUID is
modelled by a counter supply threaded left to right in JS evaluation
order; a returned none models a thrown TypeError (property access on
null).  The 1.0.1 and 1.0.2 version blocks only log and are omitted. -/

/-- APP_VERSION of the localStorage-era page. -/
def APP_VERSION : String := "1.0.3"

/-- generateId modelled by a deterministic supply counter; real ids are
random UUIDs, and only their truthiness and freshness matter. -/
def genId (s : Nat) : String := "uuid-" ++ toString s

/-- The idiom `x || generateId()`: the generator is consumed only when
the left operand is falsy (short-circuit evaluation). -/
def freshOr (v : Option Json) (s : Nat) : Json × Nat :=
  match v with
  | some j => if truthy j then (j, s) else (.str (genId s), s + 1)
  | none => (.str (genId s), s + 1)

/-- The value of `(x?.length || 0)` used for the nextColorIndex default.
A truthy non-numeric length property would give NaN after the modulo;
NaN is modelled as 0 (the code only tests typeof, which is "number" for
NaN too). -/
def jsLengthOrZero (v : Option Json) : Int :=
  match v with
  | some (.arr xs) => xs.length
  | some (.str s) => s.length
  | some (.obj fs) =>
      match alookup fs "length" with
      | some (.num n) => n
      | _ => 0
  | _ => 0

/-- Is this JSON value null? -/
def jsIsNull : Json → Bool
  | .null => true
  | _ => false

/-- Coercion of one stored sub-task (migrateData, projects branch and
schedule branch share it): synthesize id, default text, boolean-coerce
completed.  Throws (none) when the element is null. -/
def coerceSubTask (st : Json) (s : Nat) : Option (Json × Nat) :=
  match jsMember st "id" with
  | none => none
  | some idv =>
      let (idj, s1) := freshOr idv s
      let textj := truthyOrD (jsMemberD st "text") (.str "Untitled Task")
      let compj := Json.bool (truthyOpt (jsMemberD st "completed"))
      some (.obj [("id", idj), ("text", textj), ("completed", compj)], s1)

/-- subTasks.map over the sub-task coercion, threading the id supply. -/
def coerceSubTasksList : List Json → Nat → Option (List Json × Nat)
  | [], s => some ([], s)
  | st :: rest, s =>
      match coerceSubTask st s with
      | none => none
      | some (j, s1) =>
          match coerceSubTasksList rest s1 with
          | none => none
          | some (js, s2) => some (j :: js, s2)

/-- Coercion of one stored project entry (migrateData general repair):
ensure id, name, subTasks array and color. -/
def coerceProject (idx : Nat) (p : Json) (s : Nat) : Option (Json × Nat) :=
  match jsMember p "id" with
  | none => none
  | some idv =>
      let (idj, s1) := freshOr idv s
      let namej := truthyOrD (jsMemberD p "name")
        (.str ("Project " ++ toString (idx + 1)))
      let stsRes :=
        match jsMemberD p "subTasks" with
        | some (.arr sts) => coerceSubTasksList sts s1
        | _ => some ([], s1)
      match stsRes with
      | none => none
      | some (stsj, s2) =>
          let colorj := truthyOrD (jsMemberD p "color")
            (.str (paletteColor idx))
          some (.obj [("id", idj), ("name", namej), ("subTasks", .arr stsj),
                      ("color", colorj)], s2)

/-- projects.map over the project coercion, threading index and supply. -/
def coerceProjectsList : List Json → Nat → Nat → Option (List Json × Nat)
  | [], _, s => some ([], s)
  | p :: rest, idx, s =>
      match coerceProject idx p s with
      | none => none
      | some (j, s1) =>
          match coerceProjectsList rest (idx + 1) s1 with
          | none => none
          | some (js, s2) => some (j :: js, s2)

/-- Coercion of one stored ScheduledTask (migrateData schedule repair). -/
def coerceTask (t : Json) (s : Nat) : Option (Json × Nat) :=
  match jsMember t "id" with
  | none => none
  | some idv =>
      let (idj, s1) := freshOr idv s
      let (pidj, s2) := freshOr (jsMemberD t "projectId") s1
      let pnj := truthyOrD (jsMemberD t "projectName") (.str "Unknown Project")
      let pcj := truthyOrD (jsMemberD t "projectColor")
        (.str "bg-gray-500 text-white")
      let stsRes :=
        match jsMemberD t "originalProjectSubTasks" with
        | some (.arr sts) => coerceSubTasksList sts s2
        | _ => some ([], s2)
      match stsRes with
      | none => none
      | some (stsj, s3) =>
          some (.obj [("id", idj), ("projectId", pidj), ("projectName", pnj),
                      ("projectColor", pcj),
                      ("originalProjectSubTasks", .arr stsj)], s3)

/-- slotTasks.map over the task coercion. -/
def coerceTasksList : List Json → Nat → Option (List Json × Nat)
  | [], s => some ([], s)
  | t :: rest, s =>
      match coerceTask t s with
      | none => none
      | some (j, s1) =>
          match coerceTasksList rest s1 with
          | none => none
          | some (js, s2) => some (j :: js, s2)

/-- The 1.0.0 repair step "ensure all projects have colors":
`{...project, color: project.color || projectColors[index % 12]}`. -/
def colorFixProject (idx : Nat) (p : Json) : Option Json :=
  match jsMember p "color" with
  | none => none
  | some cv =>
      some (.obj (aset (jsSpread p) "color"
        (truthyOrD cv (.str (paletteColor idx)))))

/-- projects.map over the 1.0.0 color repair. -/
def colorFixList : List Json → Nat → Option (List Json)
  | [], _ => some []
  | p :: rest, idx =>
      match colorFixProject idx p with
      | none => none
      | some j =>
          match colorFixList rest (idx + 1) with
          | none => none
          | some js => some (j :: js)

/-- The validated-schedule loop of migrateData: for every known slot id,
a stored array is coerced element by element; anything else becomes the
empty array.  The getter abstracts property access on the stored schedule
value (an object or an array). -/
def validateSlots : List TimeSlot → (String → Option Json) → Nat →
    Option (List (String × Json) × Nat)
  | [], _, s => some ([], s)
  | slot :: rest, get, s =>
      match get slot.id with
      | some (.arr ts) =>
          match coerceTasksList ts s with
          | none => none
          | some (ts2, s2) =>
              match validateSlots rest get s2 with
              | none => none
              | some (fs, s3) => some ((slot.id, .arr ts2) :: fs, s3)
      | _ =>
          match validateSlots rest get s with
          | none => none
          | some (fs, s2) => some ((slot.id, .arr []) :: fs, s2)

/-- JSON encoding of a typed SubTask (field order of the TS literals). -/
def subTaskToJson (st : SubTask) : Json :=
  .obj [("id", .str st.id), ("text", .str st.text),
        ("completed", .bool st.completed)]

/-- JSON encoding of a typed Project (field order of the TS literals). -/
def projectToJson (p : Project) : Json :=
  .obj [("id", .str p.id), ("name", .str p.name),
        ("subTasks", .arr (p.subTasks.map subTaskToJson)),
        ("color", .str p.color)]

/-- getInitialProjects: JSON.parse(JSON.stringify(initialProjectsData)). -/
def getInitialProjects : List Json := initialProjectsData.map projectToJson

/-- getInitialSchedule: every known slot id mapped to an empty array. -/
def getInitialSchedule : List (String × Json) :=
  allTimeSlots.map (fun slot => (slot.id, .arr []))

/-- The final assignment sequence of migrateData (projects, schedule,
nextColorIndex repair, version stamp), split out as a named stage. -/
def migrateTail (md2 : List (String × Json)) (projs : List Json)
    (sched : List (String × Json)) : Json :=
  let md3 := aset md2 "projects" (.arr projs)
  let md4 := aset md3 "schedule" (.obj sched)
  let md5 :=
    if isNumberField (alookup md4 "nextColorIndex") then md4
    else aset md4 "nextColorIndex"
      (.num (Int.tmod (jsLengthOrZero (alookup md4 "projects"))
        projectColors.length))
  .obj (aset md5 "version" (.str APP_VERSION))

/-- The version-indexed repair block of migrateData: read data.version
(throwing on null), default it to 1.0.0 when falsy, spread the payload,
and on 1.0.0 payloads default nextColorIndex and run the color repair
over an array-valued projects field.  The 1.0.1 and 1.0.2 blocks only
log.  Returns the repaired field list. -/
def migVersionRepair (data : Json) : Option (List (String × Json)) :=
  match jsMember data "version" with
  | none => none
  | some verv =>
      let version := truthyOrD verv (.str "1.0.0")
      let is100 : Bool :=
        match version with
        | .str sv => sv == "1.0.0"
        | _ => false
      let md0 := jsSpread data
      let md1 :=
        if is100 then
          (if isNumberField (alookup md0 "nextColorIndex") then md0
           else aset md0 "nextColorIndex"
             (.num (Int.tmod (jsLengthOrZero (alookup md0 "projects"))
               projectColors.length)))
        else md0
      if is100 then
        match alookup md1 "projects" with
        | some (.arr ps) =>
            (colorFixList ps 0).map (fun ps2 => aset md1 "projects" (.arr ps2))
        | _ => some md1
      else some md1

/-- The Array.isArray(migratedData.projects) check: an array-valued
projects field is kept, anything else is replaced by the defaults. -/
def migBaseProjects (md2 : List (String × Json)) : List Json :=
  match alookup md2 "projects" with
  | some (.arr ps) => ps
  | _ => getInitialProjects

/-- The schedule validation block: a stored object (or array, which JS
also types as object) is validated slot by slot, anything else is
replaced by the initial schedule. -/
def migSchedRes (md3 : List (String × Json)) (s1 : Nat) :
    Option (List (String × Json) × Nat) :=
  match alookup md3 "schedule" with
  | some (.obj sfs) => validateSlots allTimeSlots (alookup sfs) s1
  | some (.arr xs) =>
      validateSlots allTimeSlots
        (fun k => if k == "length" then some (.num xs.length) else none) s1
  | _ => some (getInitialSchedule, s1)

/-- migrateData from app/page.tsx (localStorage era): version-indexed
repair (the 1.0.0 step), then unconditional structural validation of
projects, schedule and nextColorIndex, then the version stamp. -/
def migrateData (data : Json) (s : Nat) : Option Json :=
  match migVersionRepair data with
  | none => none
  | some md2 =>
      match coerceProjectsList (migBaseProjects md2) 0 s with
      | none => none
      | some (projs, s1) =>
          match migSchedRes (aset md2 "projects" (.arr projs)) s1 with
          | none => none
          | some (sched, _s2) => some (migrateTail md2 projs sched)

/-- Field projection of a migrated bundle, for concrete test inputs. -/
def outField (x : Json) (k : String) : Option Json :=
  match migrateData x 0 with
  | some (.obj fs) => alookup fs k
  | _ => none

/-! ## Claim C2: migrator totality (counterexample) -/

/-- A payload whose two project entries share the id "a". -/
def dupInput : Json :=
  .obj [("version", .str "1.0.3"),
        ("projects", .arr [.obj [("id", .str "a")], .obj [("id", .str "a")]])]

/-- A payload carrying a negative numeric nextColorIndex. -/
def negInput : Json :=
  .obj [("nextColorIndex", .num (-1))]

/-- C2 counterexample: migrate is not total on JSON-parseable inputs
(migrate(null) throws reading data.version), migrated bundles may carry
duplicate project ids (both coerced projects keep id "a"), and a stored
negative numeric nextColorIndex is kept as is, so nextColorIndex need not
be non-negative. -/
theorem migrator_totality_C2_counterexample :
    migrateData Json.null 0 = none ∧
    outField dupInput "projects" =
      some (.arr
        [ .obj [("id", .str "a"), ("name", .str "Project 1"),
                ("subTasks", .arr []),
                ("color", .str "bg-blue-500 text-white")]
        , .obj [("id", .str "a"), ("name", .str "Project 2"),
                ("subTasks", .arr []),
                ("color", .str "bg-pink-500 text-white")] ]) ∧
    outField negInput "nextColorIndex" = some (.num (-1)) ∧
    ¬ (0 ≤ (-1 : Int)) :=
  ⟨rfl, rfl, rfl, by decide⟩

/-! ## Structural well-formedness of migrated bundles -/

/-- A coerced sub-task: exactly the fields id/text/completed, id and text
truthy, completed a boolean. -/
def wfSubTaskJson : Json → Bool
  | .obj [("id", i), ("text", t), ("completed", .bool _)] =>
      truthy i && truthy t
  | _ => false

/-- A coerced project: exactly the fields id/name/subTasks/color in that
order, id, name and color truthy, subTasks an array of coerced
sub-tasks. -/
def wfProjectJson : Json → Bool
  | .obj [("id", i), ("name", n), ("subTasks", .arr sts), ("color", c)] =>
      truthy i && truthy n && truthy c && sts.all wfSubTaskJson
  | _ => false

/-- A coerced ScheduledTask: exactly the five snapshot fields, the string
fields truthy, the copied sub-task list an array of coerced sub-tasks. -/
def wfTaskJson : Json → Bool
  | .obj [("id", i), ("projectId", p), ("projectName", n),
          ("projectColor", c), ("originalProjectSubTasks", .arr sts)] =>
      truthy i && truthy p && truthy n && truthy c && sts.all wfSubTaskJson
  | _ => false

/-- The schedule object of a migrated bundle: exactly the known slot ids,
in order, each mapped to an array of coerced tasks. -/
def schedCanonical : List TimeSlot → List (String × Json) → Bool
  | [], [] => true
  | slot :: rest, (k, .arr ts) :: fs =>
      k == slot.id && ts.all wfTaskJson && schedCanonical rest fs
  | _, _ => false

/-- The structural invariants guaranteed for every migrated bundle:
projects is an array of well-formed projects, schedule maps exactly the
known slot ids to arrays of well-formed tasks, nextColorIndex is numeric,
and the version is stamped to APP_VERSION. -/
def canonicalBundle : Json → Bool
  | .obj fs =>
      (match alookup fs "projects" with
       | some (.arr ps) => ps.all wfProjectJson
       | _ => false) &&
      (match alookup fs "schedule" with
       | some (.obj sfs) => schedCanonical allTimeSlots sfs
       | _ => false) &&
      isNumberField (alookup fs "nextColorIndex") &&
      (match alookup fs "version" with
       | some (.str v) => v == APP_VERSION
       | _ => false)
  | _ => false

/-! ## Inputs on which migrateData cannot throw -/

/-- A project entry migrateData can coerce without throwing: not null,
and when it is an object whose subTasks field is an array, that array is
free of null entries.  Arrays, strings and the other primitives are
always safe: reading a named property on them yields undefined, and
their spread contributes only numeric index keys, which never collide
with the property names the coercion reads. -/
def safeProjectElem : Json → Bool
  | .null => false
  | .obj fs =>
      (match alookup fs "subTasks" with
       | some (.arr sts) => sts.all (fun st => !jsIsNull st)
       | _ => true)
  | _ => true

/-- A stored slot entry migrateData can coerce without throwing: not
null, and a copied sub-task array (when present) free of null entries. -/
def safeTaskElem (t : Json) : Bool :=
  !jsIsNull t &&
    (match jsMemberD t "originalProjectSubTasks" with
     | some (.arr sts) => sts.all (fun st => !jsIsNull st)
     | _ => true)

/-- The projects field of a payload holds only safe entries (or is not
an array at all, in which case it is replaced by the defaults). -/
def projectsFieldSafe (fs : List (String × Json)) : Bool :=
  match alookup fs "projects" with
  | some (.arr ps) => ps.all safeProjectElem
  | _ => true

/-- The schedule field of a payload maps known slot ids only to safe task
arrays (or is not an object, in which case it is replaced wholesale). -/
def scheduleFieldSafe (fs : List (String × Json)) : Bool :=
  match alookup fs "schedule" with
  | some (.obj sfs) => allTimeSlots.all (fun slot =>
      match alookup sfs slot.id with
      | some (.arr ts) => ts.all safeTaskElem
      | _ => true)
  | _ => true

/-- Inputs on which migrateData provably terminates without throwing: a
non-null value whose projects array (when present) holds safe project
entries and whose schedule object (when present) holds, at known slot
ids, arrays of safe task entries. -/
def safeInput (x : Json) : Bool :=
  !jsIsNull x && projectsFieldSafe (jsSpread x) &&
    scheduleFieldSafe (jsSpread x)

/-! ## Truthiness facts for the migrator defaults -/

theorem append_ne_empty (a t : String) (ha : a.length ≠ 0) :
    (a ++ t) ≠ "" := by
  intro h
  have hl := congrArg String.length h
  rw [String.length_append] at hl
  have h0 : ("" : String).length = 0 := rfl
  omega

theorem truthy_genId (s : Nat) : truthy (.str (genId s)) = true := by
  simp only [truthy, genId, bne_iff_ne, ne_eq]
  exact append_ne_empty "uuid-" (toString s) (by decide)

theorem truthy_projectDefault (idx : Nat) :
    truthy (.str ("Project " ++ toString (idx + 1))) = true := by
  simp only [truthy, bne_iff_ne, ne_eq]
  exact append_ne_empty "Project " (toString (idx + 1)) (by decide)

theorem truthy_paletteColor (i : Nat) :
    truthy (.str (paletteColor i)) = true := by
  unfold paletteColor
  have hb : ∀ j, j < projectColors.length →
      truthy (.str (projectColors.getD j "")) = true := by decide
  exact hb _ (Nat.mod_lt _ (by decide))

theorem truthy_freshOr (v : Option Json) (s : Nat) :
    truthy (freshOr v s).1 = true := by
  cases v with
  | none => simpa [freshOr] using truthy_genId s
  | some j =>
      by_cases h : truthy j = true
      · simpa [freshOr, h] using h
      · simpa [freshOr, h] using truthy_genId s

theorem truthy_truthyOrD (v : Option Json) (d : Json)
    (hd : truthy d = true) : truthy (truthyOrD v d) = true := by
  cases v with
  | none => simpa [truthyOrD] using hd
  | some j =>
      by_cases h : truthy j = true
      · simpa [truthyOrD, h] using h
      · simpa [truthyOrD, h] using hd

/-! ## Well-formedness of coerced values -/

theorem coerceSubTask_wf {st j : Json} {s s2 : Nat}
    (h : coerceSubTask st s = some (j, s2)) : wfSubTaskJson j = true := by
  unfold coerceSubTask at h
  cases hid : jsMember st "id" with
  | none => rw [hid] at h; cases h
  | some idv =>
      rw [hid] at h
      simp only at h
      cases h
      simp only [wfSubTaskJson, Bool.and_eq_true]
      exact ⟨truthy_freshOr idv s, truthy_truthyOrD _ _ (by decide)⟩

theorem coerceSubTasksList_wf {sts js : List Json} {s s2 : Nat}
    (h : coerceSubTasksList sts s = some (js, s2)) :
    js.all wfSubTaskJson = true := by
  induction sts generalizing js s s2 with
  | nil => unfold coerceSubTasksList at h; cases h; rfl
  | cons st rest ih =>
      unfold coerceSubTasksList at h
      cases h1 : coerceSubTask st s with
      | none => rw [h1] at h; cases h
      | some out =>
          obtain ⟨j1, s1⟩ := out
          rw [h1] at h
          simp only at h
          cases h2 : coerceSubTasksList rest s1 with
          | none => rw [h2] at h; cases h
          | some out2 =>
              obtain ⟨js2, s3⟩ := out2
              rw [h2] at h
              simp only at h
              cases h
              simp only [List.all_cons, Bool.and_eq_true]
              exact ⟨coerceSubTask_wf h1, ih h2⟩

theorem coerceProject_wf {p j : Json} {idx : Nat} {s s2 : Nat}
    (h : coerceProject idx p s = some (j, s2)) : wfProjectJson j = true := by
  unfold coerceProject at h
  cases hid : jsMember p "id" with
  | none => rw [hid] at h; cases h
  | some idv =>
      rw [hid] at h
      simp only at h
      cases hst : (match jsMemberD p "subTasks" with
        | some (.arr sts) => coerceSubTasksList sts
            (freshOr idv s).2
        | _ => some ([], (freshOr idv s).2)) with
      | none => rw [hst] at h; cases h
      | some out =>
          obtain ⟨stsj, s3⟩ := out
          rw [hst] at h
          simp only at h
          cases h
          simp only [wfProjectJson, Bool.and_eq_true]
          refine ⟨⟨⟨truthy_freshOr idv s,
            truthy_truthyOrD _ _ (truthy_projectDefault idx)⟩,
            truthy_truthyOrD _ _ (truthy_paletteColor idx)⟩, ?_⟩
          cases hm : jsMemberD p "subTasks" with
          | none => rw [hm] at hst; cases hst; rfl
          | some sv =>
              cases sv with
              | arr sts =>
                  rw [hm] at hst
                  exact coerceSubTasksList_wf hst
              | null => rw [hm] at hst; cases hst; rfl
              | bool b => rw [hm] at hst; cases hst; rfl
              | num n => rw [hm] at hst; cases hst; rfl
              | str s4 => rw [hm] at hst; cases hst; rfl
              | obj fs => rw [hm] at hst; cases hst; rfl

theorem coerceProjectsList_wf {ps js : List Json} {idx s s2 : Nat}
    (h : coerceProjectsList ps idx s = some (js, s2)) :
    js.all wfProjectJson = true := by
  induction ps generalizing js idx s s2 with
  | nil => unfold coerceProjectsList at h; cases h; rfl
  | cons p rest ih =>
      unfold coerceProjectsList at h
      cases h1 : coerceProject idx p s with
      | none => rw [h1] at h; cases h
      | some out =>
          obtain ⟨j1, s1⟩ := out
          rw [h1] at h
          simp only at h
          cases h2 : coerceProjectsList rest (idx + 1) s1 with
          | none => rw [h2] at h; cases h
          | some out2 =>
              obtain ⟨js2, s3⟩ := out2
              rw [h2] at h
              simp only at h
              cases h
              simp only [List.all_cons, Bool.and_eq_true]
              exact ⟨coerceProject_wf h1, ih h2⟩

theorem coerceTask_wf {t j : Json} {s s2 : Nat}
    (h : coerceTask t s = some (j, s2)) : wfTaskJson j = true := by
  unfold coerceTask at h
  cases hid : jsMember t "id" with
  | none => rw [hid] at h; cases h
  | some idv =>
      rw [hid] at h
      simp only at h
      cases hst : (match jsMemberD t "originalProjectSubTasks" with
        | some (.arr sts) => coerceSubTasksList sts
            (freshOr (jsMemberD t "projectId") (freshOr idv s).2).2
        | _ => some ([], (freshOr (jsMemberD t "projectId")
            (freshOr idv s).2).2)) with
      | none => rw [hst] at h; cases h
      | some out =>
          obtain ⟨stsj, s3⟩ := out
          rw [hst] at h
          simp only at h
          cases h
          simp only [wfTaskJson, Bool.and_eq_true]
          refine ⟨⟨⟨⟨truthy_freshOr idv s, truthy_freshOr _ _⟩,
            truthy_truthyOrD _ _ (by decide)⟩,
            truthy_truthyOrD _ _ (by decide)⟩, ?_⟩
          cases hm : jsMemberD t "originalProjectSubTasks" with
          | none => rw [hm] at hst; cases hst; rfl
          | some sv =>
              cases sv with
              | arr sts =>
                  rw [hm] at hst
                  exact coerceSubTasksList_wf hst
              | null => rw [hm] at hst; cases hst; rfl
              | bool b => rw [hm] at hst; cases hst; rfl
              | num n => rw [hm] at hst; cases hst; rfl
              | str s4 => rw [hm] at hst; cases hst; rfl
              | obj fs => rw [hm] at hst; cases hst; rfl

theorem coerceTasksList_wf {ts js : List Json} {s s2 : Nat}
    (h : coerceTasksList ts s = some (js, s2)) :
    js.all wfTaskJson = true := by
  induction ts generalizing js s s2 with
  | nil => unfold coerceTasksList at h; cases h; rfl
  | cons t rest ih =>
      unfold coerceTasksList at h
      cases h1 : coerceTask t s with
      | none => rw [h1] at h; cases h
      | some out =>
          obtain ⟨j1, s1⟩ := out
          rw [h1] at h
          simp only at h
          cases h2 : coerceTasksList rest s1 with
          | none => rw [h2] at h; cases h
          | some out2 =>
              obtain ⟨js2, s3⟩ := out2
              rw [h2] at h
              simp only at h
              cases h
              simp only [List.all_cons, Bool.and_eq_true]
              exact ⟨coerceTask_wf h1, ih h2⟩

theorem validateSlots_canonical {slots : List TimeSlot}
    {get : String → Option Json} {fs : List (String × Json)} {s s2 : Nat}
    (h : validateSlots slots get s = some (fs, s2)) :
    schedCanonical slots fs = true := by
  induction slots generalizing fs s s2 with
  | nil => unfold validateSlots at h; cases h; rfl
  | cons slot rest ih =>
      unfold validateSlots at h
      cases hg : get slot.id with
      | none =>
          rw [hg] at h
          simp only at h
          cases h2 : validateSlots rest get s with
          | none => rw [h2] at h; cases h
          | some out =>
              obtain ⟨fs2, s3⟩ := out
              rw [h2] at h
              simp only at h
              cases h
              simp only [schedCanonical, Bool.and_eq_true]
              exact ⟨⟨by simp, rfl⟩, ih h2⟩
      | some v =>
          cases v with
          | arr ts =>
              rw [hg] at h
              simp only at h
              cases h1 : coerceTasksList ts s with
              | none => rw [h1] at h; cases h
              | some out =>
                  obtain ⟨ts2, s3⟩ := out
                  rw [h1] at h
                  simp only at h
                  cases h2 : validateSlots rest get s3 with
                  | none => rw [h2] at h; cases h
                  | some out2 =>
                      obtain ⟨fs2, s4⟩ := out2
                      rw [h2] at h
                      simp only at h
                      cases h
                      simp only [schedCanonical, Bool.and_eq_true]
                      exact ⟨⟨by simp, coerceTasksList_wf h1⟩, ih h2⟩
          | null =>
              rw [hg] at h
              simp only at h
              cases h2 : validateSlots rest get s with
              | none => rw [h2] at h; cases h
              | some out =>
                  obtain ⟨fs2, s3⟩ := out
                  rw [h2] at h
                  simp only at h
                  cases h
                  simp only [schedCanonical, Bool.and_eq_true]
                  exact ⟨⟨by simp, rfl⟩, ih h2⟩
          | bool b =>
              rw [hg] at h
              simp only at h
              cases h2 : validateSlots rest get s with
              | none => rw [h2] at h; cases h
              | some out =>
                  obtain ⟨fs2, s3⟩ := out
                  rw [h2] at h
                  simp only at h
                  cases h
                  simp only [schedCanonical, Bool.and_eq_true]
                  exact ⟨⟨by simp, rfl⟩, ih h2⟩
          | num n =>
              rw [hg] at h
              simp only at h
              cases h2 : validateSlots rest get s with
              | none => rw [h2] at h; cases h
              | some out =>
                  obtain ⟨fs2, s3⟩ := out
                  rw [h2] at h
                  simp only at h
                  cases h
                  simp only [schedCanonical, Bool.and_eq_true]
                  exact ⟨⟨by simp, rfl⟩, ih h2⟩
          | str s5 =>
              rw [hg] at h
              simp only at h
              cases h2 : validateSlots rest get s with
              | none => rw [h2] at h; cases h
              | some out =>
                  obtain ⟨fs2, s3⟩ := out
                  rw [h2] at h
                  simp only at h
                  cases h
                  simp only [schedCanonical, Bool.and_eq_true]
                  exact ⟨⟨by simp, rfl⟩, ih h2⟩
          | obj fs5 =>
              rw [hg] at h
              simp only at h
              cases h2 : validateSlots rest get s with
              | none => rw [h2] at h; cases h
              | some out =>
                  obtain ⟨fs2, s3⟩ := out
                  rw [h2] at h
                  simp only at h
                  cases h
                  simp only [schedCanonical, Bool.and_eq_true]
                  exact ⟨⟨by simp, rfl⟩, ih h2⟩

theorem getInitialSchedule_canonical :
    schedCanonical allTimeSlots getInitialSchedule = true := by decide

theorem isNumberField_iff {v : Option Json} :
    isNumberField v = true ↔ ∃ n, v = some (.num n) := by
  constructor
  · intro h
    match v with
    | some (.num n) => exact ⟨n, rfl⟩
    | none => cases h
    | some .null => cases h
    | some (.bool b) => cases h
    | some (.str s) => cases h
    | some (.arr xs) => cases h
    | some (.obj fs) => cases h
  · rintro ⟨n, rfl⟩
    rfl

theorem canonicalBundle_of_lookups (fs : List (String × Json))
    (projs : List Json) (sched : List (String × Json)) (n : Int)
    (h1 : alookup fs "projects" = some (.arr projs))
    (h2 : alookup fs "schedule" = some (.obj sched))
    (h3 : alookup fs "nextColorIndex" = some (.num n))
    (h4 : alookup fs "version" = some (.str APP_VERSION))
    (hp : projs.all wfProjectJson = true)
    (hs : schedCanonical allTimeSlots sched = true) :
    canonicalBundle (.obj fs) = true := by
  simp [canonicalBundle, h1, h2, h3, h4, hp, hs, isNumberField]

theorem canonical_migrateTail (md2 : List (String × Json))
    (projs : List Json) (sched : List (String × Json))
    (hp : projs.all wfProjectJson = true)
    (hs : schedCanonical allTimeSlots sched = true) :
    canonicalBundle (migrateTail md2 projs sched) = true := by
  unfold migrateTail
  dsimp only
  have hpv : ("projects" : String) ≠ "version" := by decide
  have hpn : ("projects" : String) ≠ "nextColorIndex" := by decide
  have hps : ("projects" : String) ≠ "schedule" := by decide
  have hsv : ("schedule" : String) ≠ "version" := by decide
  have hsn : ("schedule" : String) ≠ "nextColorIndex" := by decide
  have hnv : ("nextColorIndex" : String) ≠ "version" := by decide
  set md3 := aset md2 "projects" (Json.arr projs) with hmd3
  set md4 := aset md3 "schedule" (Json.obj sched) with hmd4
  have hm4p : alookup md4 "projects" = some (.arr projs) := by
    rw [hmd4, alookup_aset_ne _ _ hps, hmd3, alookup_aset_self]
  have hm4s : alookup md4 "schedule" = some (.obj sched) := by
    rw [hmd4, alookup_aset_self]
  by_cases hn : isNumberField (alookup md4 "nextColorIndex") = true
  · rw [if_pos hn]
    obtain ⟨m, hm⟩ := isNumberField_iff.mp hn
    refine canonicalBundle_of_lookups _ projs sched m ?_ ?_ ?_ ?_ hp hs
    · rw [alookup_aset_ne _ _ hpv]; exact hm4p
    · rw [alookup_aset_ne _ _ hsv]; exact hm4s
    · rw [alookup_aset_ne _ _ hnv]; exact hm
    · exact alookup_aset_self _ _ _
  · rw [if_neg hn]
    refine canonicalBundle_of_lookups _ projs sched
      (Int.tmod (jsLengthOrZero (alookup md4 "projects"))
        projectColors.length) ?_ ?_ ?_ ?_ hp hs
    · rw [alookup_aset_ne _ _ hpv, alookup_aset_ne _ _ hpn]; exact hm4p
    · rw [alookup_aset_ne _ _ hsv, alookup_aset_ne _ _ hsn]; exact hm4s
    · rw [alookup_aset_ne _ _ hnv, alookup_aset_self]
    · exact alookup_aset_self _ _ _

theorem migSchedRes_canonical {md3 : List (String × Json)}
    {sched : List (String × Json)} {s1 s2 : Nat}
    (h : migSchedRes md3 s1 = some (sched, s2)) :
    schedCanonical allTimeSlots sched = true := by
  unfold migSchedRes at h
  cases hl : alookup md3 "schedule" with
  | none =>
      rw [hl] at h
      simp only at h
      cases h
      exact getInitialSchedule_canonical
  | some v =>
      cases v with
      | obj sfs => rw [hl] at h; exact validateSlots_canonical h
      | arr xs => rw [hl] at h; exact validateSlots_canonical h
      | null =>
          rw [hl] at h; simp only at h; cases h
          exact getInitialSchedule_canonical
      | bool b =>
          rw [hl] at h; simp only at h; cases h
          exact getInitialSchedule_canonical
      | num n =>
          rw [hl] at h; simp only at h; cases h
          exact getInitialSchedule_canonical
      | str s5 =>
          rw [hl] at h; simp only at h; cases h
          exact getInitialSchedule_canonical

theorem migrateData_canonical {x : Json} {s : Nat} {y : Json}
    (h : migrateData x s = some y) : canonicalBundle y = true := by
  unfold migrateData at h
  cases hv : migVersionRepair x with
  | none => rw [hv] at h; cases h
  | some md2 =>
      rw [hv] at h
      simp only at h
      cases hcp : coerceProjectsList (migBaseProjects md2) 0 s with
      | none => rw [hcp] at h; cases h
      | some out =>
          obtain ⟨projs, s1⟩ := out
          rw [hcp] at h
          simp only at h
          cases hsc : migSchedRes (aset md2 "projects" (.arr projs)) s1 with
          | none => rw [hsc] at h; cases h
          | some out2 =>
              obtain ⟨sched, s2⟩ := out2
              rw [hsc] at h
              simp only at h
              cases h
              exact canonical_migrateTail md2 projs sched
                (coerceProjectsList_wf hcp) (migSchedRes_canonical hsc)

/-! ## A second migration pass is the identity on coerced values -/

theorem truthy_bool (b : Bool) : truthy (.bool b) = b := rfl

theorem coerceSubTask_id {st : Json} (m : Nat) (h : wfSubTaskJson st = true) :
    coerceSubTask st m = some (st, m) := by
  unfold wfSubTaskJson at h
  split at h
  · rename_i i t b
    simp only [Bool.and_eq_true] at h
    obtain ⟨hi, ht⟩ := h
    simp +decide [coerceSubTask, jsMember, jsMemberD, alookup, freshOr,
      truthyOrD, truthyOpt, hi, ht, truthy_bool]
  · cases h

theorem coerceSubTasksList_id {sts : List Json} (m : Nat)
    (h : sts.all wfSubTaskJson = true) :
    coerceSubTasksList sts m = some (sts, m) := by
  induction sts with
  | nil => rfl
  | cons st rest ih =>
      simp only [List.all_cons, Bool.and_eq_true] at h
      obtain ⟨h1, h2⟩ := h
      unfold coerceSubTasksList
      rw [coerceSubTask_id m h1]
      simp only
      rw [ih h2]

theorem coerceProject_id {p : Json} (idx m : Nat)
    (h : wfProjectJson p = true) : coerceProject idx p m = some (p, m) := by
  unfold wfProjectJson at h
  split at h
  · rename_i i n sts c
    simp only [Bool.and_eq_true] at h
    obtain ⟨⟨⟨hi, hn⟩, hc⟩, hsts⟩ := h
    unfold coerceProject
    simp only [jsMember, jsMemberD, alookup]
    simp +decide [freshOr, truthyOrD, hi, hn, hc,
      coerceSubTasksList_id m hsts]
  · cases h

theorem coerceProjectsList_id {ps : List Json} (idx m : Nat)
    (h : ps.all wfProjectJson = true) :
    coerceProjectsList ps idx m = some (ps, m) := by
  induction ps generalizing idx with
  | nil => rfl
  | cons p rest ih =>
      simp only [List.all_cons, Bool.and_eq_true] at h
      obtain ⟨h1, h2⟩ := h
      unfold coerceProjectsList
      rw [coerceProject_id idx m h1]
      simp only
      rw [ih _ h2]

theorem coerceTask_id {t : Json} (m : Nat) (h : wfTaskJson t = true) :
    coerceTask t m = some (t, m) := by
  unfold wfTaskJson at h
  split at h
  · rename_i i p n c sts
    simp only [Bool.and_eq_true] at h
    obtain ⟨⟨⟨⟨hi, hp⟩, hn⟩, hc⟩, hsts⟩ := h
    unfold coerceTask
    simp only [jsMember, jsMemberD, alookup]
    simp +decide [freshOr, truthyOrD, hi, hp, hn, hc,
      coerceSubTasksList_id m hsts]
  · cases h

theorem coerceTasksList_id {ts : List Json} (m : Nat)
    (h : ts.all wfTaskJson = true) : coerceTasksList ts m = some (ts, m) := by
  induction ts with
  | nil => rfl
  | cons t rest ih =>
      simp only [List.all_cons, Bool.and_eq_true] at h
      obtain ⟨h1, h2⟩ := h
      unfold coerceTasksList
      rw [coerceTask_id m h1]
      simp only
      rw [ih h2]

theorem allTimeSlotIds_nodup : (allTimeSlots.map TimeSlot.id).Nodup := by
  decide

theorem validateSlots_id (slots : List TimeSlot) :
    ∀ (sfs : List (String × Json)) (get : String → Option Json) (m : Nat),
      schedCanonical slots sfs = true →
      (∀ slot ∈ slots, get slot.id = alookup sfs slot.id) →
      (slots.map TimeSlot.id).Nodup →
      validateSlots slots get m = some (sfs, m) := by
  induction slots with
  | nil =>
      intro sfs get m h _ _
      cases sfs with
      | nil => rfl
      | cons e fs => exact absurd h (by simp [schedCanonical])
  | cons slot rest ih =>
      intro sfs get m h hget hnd
      cases sfs with
      | nil => exact absurd h (by simp [schedCanonical])
      | cons e gfs =>
          obtain ⟨k, v⟩ := e
          cases v with
          | arr ts =>
              simp only [schedCanonical, Bool.and_eq_true] at h
              obtain ⟨⟨hk, hts⟩, hrest⟩ := h
              have hkeq : k = slot.id := by simpa using hk
              subst hkeq
              simp only [List.map_cons, List.nodup_cons] at hnd
              obtain ⟨hnotin, hnd2⟩ := hnd
              unfold validateSlots
              rw [hget slot (List.mem_cons_self _ _)]
              have hhead : alookup ((slot.id, Json.arr ts) :: gfs) slot.id =
                  some (Json.arr ts) := by simp [alookup]
              rw [hhead]
              simp only
              rw [coerceTasksList_id m hts]
              simp only
              have hget2 : ∀ slot2 ∈ rest,
                  get slot2.id = alookup gfs slot2.id := by
                intro slot2 hs2
                rw [hget slot2 (List.mem_cons_of_mem _ hs2)]
                have hne : (slot.id == slot2.id) = false := by
                  have : slot.id ≠ slot2.id := by
                    intro hcontra
                    exact hnotin (hcontra ▸ List.mem_map_of_mem _ hs2)
                  simpa using this
                simp [alookup, hne]
              rw [ih gfs get m hrest hget2 hnd2]
          | null => exact absurd h (by simp [schedCanonical])
          | bool b => exact absurd h (by simp [schedCanonical])
          | num n => exact absurd h (by simp [schedCanonical])
          | str s5 => exact absurd h (by simp [schedCanonical])
          | obj fs5 => exact absurd h (by simp [schedCanonical])

theorem migrateData_id {y : Json} (h : canonicalBundle y = true) (m : Nat) :
    migrateData y m = some y := by
  cases y with
  | null => cases h
  | bool b => cases h
  | num n => cases h
  | str s5 => cases h
  | arr xs => cases h
  | obj fs =>
      simp only [canonicalBundle, Bool.and_eq_true] at h
      obtain ⟨⟨⟨hp, hs⟩, hn⟩, hv⟩ := h
      cases hpl : alookup fs "projects" with
      | none => rw [hpl] at hp; cases hp
      | some pv =>
          rw [hpl] at hp
          cases pv with
          | arr ps =>
            cases hsl : alookup fs "schedule" with
            | none => rw [hsl] at hs; cases hs
            | some sv =>
                rw [hsl] at hs
                cases sv with
                | obj sfs =>
                  cases hvl : alookup fs "version" with
                  | none => rw [hvl] at hv; cases hv
                  | some vv =>
                      rw [hvl] at hv
                      cases vv with
                      | str ver =>
                        have hver : ver = APP_VERSION := by simpa using hv
                        subst hver
                        obtain ⟨nci, hnl⟩ := isNumberField_iff.mp hn
                        unfold migrateData
                        have h1 : migVersionRepair (.obj fs) = some fs := by
                          unfold migVersionRepair
                          simp only [jsMember]
                          rw [hvl]
                          simp +decide [truthyOrD, jsSpread, APP_VERSION]
                        rw [h1]
                        simp only
                        have h2 : migBaseProjects fs = ps := by
                          unfold migBaseProjects; rw [hpl]
                        rw [h2, coerceProjectsList_id 0 m hp]
                        simp only
                        have h3 : aset fs "projects" (.arr ps) = fs :=
                          aset_self hpl
                        rw [h3]
                        have h4 : migSchedRes fs m = some (sfs, m) := by
                          unfold migSchedRes
                          rw [hsl]
                          exact validateSlots_id allTimeSlots sfs
                            (alookup sfs) m hs (fun _ _ => rfl)
                            allTimeSlotIds_nodup
                        rw [h4]
                        simp only
                        have h5 : migrateTail fs ps sfs = .obj fs := by
                          unfold migrateTail
                          dsimp only
                          rw [h3, aset_self hsl, hnl]
                          simp only [isNumberField, if_true]
                          rw [aset_self hvl]
                        rw [h5]
                      | null => cases hv
                      | bool b => cases hv
                      | num n2 => cases hv
                      | arr xs => cases hv
                      | obj fs2 => cases hv
                | null => cases hs
                | bool b => cases hs
                | num n2 => cases hs
                | str s6 => cases hs
                | arr xs => cases hs
          | null => cases hp
          | bool b => cases hp
          | num n2 => cases hp
          | str s6 => cases hp
          | obj fs2 => cases hp

/-! ## Claim C7: migrator idempotence -/

/-- C7: the Schema Migrator is idempotent: whenever migrate is defined
(returns a bundle rather than throwing), a second pass over its own
output returns the same bundle unchanged, for any id supply. -/
theorem migrator_idempotent_C7 (x : Json) (s : Nat) (y : Json) (m : Nat)
    (h : migrateData x s = some y) : migrateData y m = some y :=
  migrateData_id (migrateData_canonical h) m

/-- The migrated form of the empty object payload. -/
def migOutEmpty : Json := (migrateData (Json.obj []) 0).getD .null

theorem migrator_idempotent_C7_witness :
    migrateData (Json.obj []) 0 = some migOutEmpty ∧
    migrateData migOutEmpty 7 = some migOutEmpty :=
  ⟨rfl, migrator_idempotent_C7 (Json.obj []) 0 migOutEmpty 7 rfl⟩

/-! ## Totality of the migrator on safe inputs -/

theorem jsMember_of_not_null {j : Json} (h : jsIsNull j = false)
    (k : String) : ∃ v, jsMember j k = some v := by
  cases j with
  | null => cases h
  | bool b => exact ⟨_, rfl⟩
  | num n => exact ⟨_, rfl⟩
  | str s5 => exact ⟨_, rfl⟩
  | arr xs => exact ⟨_, rfl⟩
  | obj fs => exact ⟨_, rfl⟩

theorem toDigitsCore_append (b : Nat) :
    ∀ (fuel n : Nat) (ds : List Char),
      ∃ pre, Nat.toDigitsCore b fuel n ds = pre ++ ds := by
  intro fuel
  induction fuel with
  | zero => intro n ds; exact ⟨[], rfl⟩
  | succ f ih =>
      intro n ds
      unfold Nat.toDigitsCore
      dsimp only
      by_cases h : n / b = 0
      · rw [if_pos h]
        exact ⟨[Nat.digitChar (n % b)], rfl⟩
      · rw [if_neg h]
        obtain ⟨pre, hpre⟩ := ih (n / b) (Nat.digitChar (n % b) :: ds)
        exact ⟨pre ++ [Nat.digitChar (n % b)], by rw [hpre]; simp⟩

theorem natRepr_data (n : Nat) :
    ∃ pre, (Nat.repr n).data = pre ++ [Nat.digitChar (n % 10)] := by
  have h1 : (Nat.repr n).data = Nat.toDigitsCore 10 (n + 1) n [] := rfl
  have h2 : Nat.toDigitsCore 10 (n + 1) n [] =
      if n / 10 = 0 then [Nat.digitChar (n % 10)]
      else Nat.toDigitsCore 10 n (n / 10) [Nat.digitChar (n % 10)] := rfl
  rw [h1, h2]
  by_cases h : n / 10 = 0
  · rw [if_pos h]
    exact ⟨[], rfl⟩
  · rw [if_neg h]
    exact toDigitsCore_append 10 n (n / 10) [Nat.digitChar (n % 10)]

/-- A decimal numeral always ends in a digit character, so the numeric
index keys contributed by a JS spread of an array or string can never
collide with the property name subTasks. -/
theorem toString_nat_ne_subTasks (n : Nat) :
    (toString n == "subTasks") = false := by
  have hne : Nat.repr n ≠ "subTasks" := by
    intro h
    obtain ⟨pre, hdata⟩ := natRepr_data n
    have hd := congrArg String.data h
    rw [hdata] at hd
    have hlast := congrArg List.getLast? hd
    rw [List.getLast?_concat] at hlast
    have hrhs : ("subTasks" : String).data.getLast? = some 's' := rfl
    rw [hrhs] at hlast
    have hchar : Nat.digitChar (n % 10) = 's' := Option.some.inj hlast
    have hlt : n % 10 < 10 := Nat.mod_lt _ (by decide)
    have hall : ∀ m, m < 10 → Nat.digitChar m ≠ 's' := by decide
    exact hall _ hlt hchar
  simpa using hne

theorem alookup_enumFrom_map {β : Type v} (key : String)
    (hkey : ∀ n : Nat, (toString n == key) = false) :
    ∀ (xs : List β) (start : Nat) (f : Nat × β → Json),
      alookup ((List.enumFrom start xs).map
        (fun p => (toString p.1, f p))) key = none := by
  intro xs
  induction xs with
  | nil => intro start f; rfl
  | cons x rest ih =>
      intro start f
      simp only [List.enumFrom, List.map_cons, alookup]
      rw [hkey start]
      simp only [Bool.false_eq_true, if_false]
      exact ih (start + 1) f

theorem jsSpread_arr_subTasks (xs : List Json) :
    alookup (jsSpread (.arr xs)) "subTasks" = none :=
  alookup_enumFrom_map "subTasks" toString_nat_ne_subTasks xs 0 Prod.snd

theorem jsSpread_str_subTasks (s : String) :
    alookup (jsSpread (.str s)) "subTasks" = none :=
  alookup_enumFrom_map "subTasks" toString_nat_ne_subTasks s.data 0
    (fun p => .str (String.mk [p.2]))

theorem colorFixProject_total {p : Json} (idx : Nat)
    (h : safeProjectElem p = true) :
    ∃ p2, colorFixProject idx p = some p2 ∧ safeProjectElem p2 = true := by
  cases p with
  | null => cases h
  | arr xs =>
      refine ⟨_, rfl, ?_⟩
      simp only [safeProjectElem]
      rw [alookup_aset_ne _ _ (by decide : ("subTasks" : String) ≠ "color"),
        jsSpread_arr_subTasks]
  | str s5 =>
      refine ⟨_, rfl, ?_⟩
      simp only [safeProjectElem]
      rw [alookup_aset_ne _ _ (by decide : ("subTasks" : String) ≠ "color"),
        jsSpread_str_subTasks]
  | bool b =>
      refine ⟨_, rfl, ?_⟩
      simp +decide [safeProjectElem, jsSpread, aset, alookup]
  | num n =>
      refine ⟨_, rfl, ?_⟩
      simp +decide [safeProjectElem, jsSpread, aset, alookup]
  | obj fs =>
      refine ⟨_, rfl, ?_⟩
      simp only [safeProjectElem, jsSpread]
      rw [alookup_aset_ne _ _ (by decide : ("subTasks" : String) ≠ "color")]
      simpa [safeProjectElem] using h

theorem colorFixList_total {ps : List Json}
    (h : ps.all safeProjectElem = true) :
    ∀ idx, ∃ ps2, colorFixList ps idx = some ps2 ∧
      ps2.all safeProjectElem = true := by
  induction ps with
  | nil => intro idx; exact ⟨[], rfl, rfl⟩
  | cons p rest ih =>
      intro idx
      simp only [List.all_cons, Bool.and_eq_true] at h
      obtain ⟨h1, h2⟩ := h
      obtain ⟨p2, hfix, hsafe⟩ := colorFixProject_total idx h1
      obtain ⟨ps2, hlist, hsafe2⟩ := ih h2 (idx + 1)
      refine ⟨p2 :: ps2, ?_, ?_⟩
      · unfold colorFixList
        rw [hfix]
        simp only
        rw [hlist]
      · simp [hsafe, hsafe2]

theorem coerceSubTask_total {st : Json} (h : jsIsNull st = false)
    (s : Nat) : ∃ out, coerceSubTask st s = some out := by
  obtain ⟨idv, hid⟩ := jsMember_of_not_null h "id"
  unfold coerceSubTask
  rw [hid]
  exact ⟨_, rfl⟩

theorem coerceSubTasksList_total {sts : List Json}
    (h : sts.all (fun st => !jsIsNull st) = true) :
    ∀ s, ∃ out, coerceSubTasksList sts s = some out := by
  induction sts with
  | nil => intro s; exact ⟨_, rfl⟩
  | cons st rest ih =>
      intro s
      simp only [List.all_cons, Bool.and_eq_true, Bool.not_eq_true'] at h
      obtain ⟨h1, h2⟩ := h
      obtain ⟨⟨j1, s1⟩, hst⟩ := coerceSubTask_total h1 s
      unfold coerceSubTasksList
      rw [hst]
      dsimp only
      obtain ⟨⟨js, s2⟩, hrest⟩ := ih (by
        simp only [List.all_eq_true] at h2 ⊢
        intro st2 hst2
        simpa using h2 st2 hst2) s1
      rw [hrest]
      exact ⟨_, rfl⟩

theorem coerceProject_total {p : Json} (h : safeProjectElem p = true) :
    ∀ idx s, ∃ out, coerceProject idx p s = some out := by
  intro idx s
  cases p with
  | null => cases h
  | arr xs => exact ⟨_, rfl⟩
  | str s5 => exact ⟨_, rfl⟩
  | bool b => exact ⟨_, rfl⟩
  | num n => exact ⟨_, rfl⟩
  | obj fs =>
      unfold coerceProject
      simp only [jsMember, jsMemberD, Option.getD_some]
      cases hm : alookup fs "subTasks" with
      | none => exact ⟨_, rfl⟩
      | some sv =>
          cases sv with
          | arr sts =>
              have hsafe : sts.all (fun st => !jsIsNull st) = true := by
                simp only [safeProjectElem] at h
                rw [hm] at h
                exact h
              obtain ⟨⟨out1, s1⟩, hlist⟩ :=
                coerceSubTasksList_total hsafe
                  (freshOr (alookup fs "id") s).2
              dsimp only
              rw [hlist]
              exact ⟨_, rfl⟩
          | null => exact ⟨_, rfl⟩
          | bool b => exact ⟨_, rfl⟩
          | num n => exact ⟨_, rfl⟩
          | str s6 => exact ⟨_, rfl⟩
          | obj fs2 => exact ⟨_, rfl⟩

theorem coerceProjectsList_total {ps : List Json}
    (h : ps.all safeProjectElem = true) :
    ∀ idx s, ∃ out, coerceProjectsList ps idx s = some out := by
  induction ps with
  | nil => intro idx s; exact ⟨_, rfl⟩
  | cons p rest ih =>
      intro idx s
      simp only [List.all_cons, Bool.and_eq_true] at h
      obtain ⟨h1, h2⟩ := h
      obtain ⟨⟨j1, s1⟩, hp⟩ := coerceProject_total h1 idx s
      unfold coerceProjectsList
      rw [hp]
      simp only
      obtain ⟨⟨js, s2⟩, hrest⟩ := ih h2 (idx + 1) s1
      rw [hrest]
      exact ⟨_, rfl⟩

theorem getInitialProjects_safe :
    getInitialProjects.all safeProjectElem = true := by decide

theorem coerceTask_total {t : Json} (h : safeTaskElem t = true) :
    ∀ s, ∃ out, coerceTask t s = some out := by
  intro s
  simp only [safeTaskElem, Bool.and_eq_true, Bool.not_eq_true'] at h
  obtain ⟨h1, h2⟩ := h
  obtain ⟨idv, hid⟩ := jsMember_of_not_null h1 "id"
  unfold coerceTask
  rw [hid]
  dsimp only
  cases hm : jsMemberD t "originalProjectSubTasks" with
  | none => exact ⟨_, rfl⟩
  | some sv =>
      rw [hm] at h2
      cases sv with
      | arr sts =>
          obtain ⟨⟨out1, s1⟩, hlist⟩ := coerceSubTasksList_total h2
            (freshOr (jsMemberD t "projectId") (freshOr idv s).2).2
          dsimp only
          rw [hlist]
          exact ⟨_, rfl⟩
      | null => exact ⟨_, rfl⟩
      | bool b => exact ⟨_, rfl⟩
      | num n => exact ⟨_, rfl⟩
      | str s6 => exact ⟨_, rfl⟩
      | obj fs2 => exact ⟨_, rfl⟩

theorem coerceTasksList_total {ts : List Json}
    (h : ts.all safeTaskElem = true) :
    ∀ s, ∃ out, coerceTasksList ts s = some out := by
  induction ts with
  | nil => intro s; exact ⟨_, rfl⟩
  | cons t rest ih =>
      intro s
      simp only [List.all_cons, Bool.and_eq_true] at h
      obtain ⟨h1, h2⟩ := h
      obtain ⟨⟨j1, s1⟩, ht⟩ := coerceTask_total h1 s
      unfold coerceTasksList
      rw [ht]
      simp only
      obtain ⟨⟨js, s2⟩, hrest⟩ := ih h2 s1
      rw [hrest]
      exact ⟨_, rfl⟩

theorem validateSlots_total (slots : List TimeSlot) :
    ∀ (get : String → Option Json) (s : Nat),
      (slots.all (fun slot =>
        match get slot.id with
        | some (.arr ts) => ts.all safeTaskElem
        | _ => true) = true) →
      ∃ out, validateSlots slots get s = some out := by
  induction slots with
  | nil => intro get s _; exact ⟨_, rfl⟩
  | cons slot rest ih =>
      intro get s h
      simp only [List.all_cons, Bool.and_eq_true] at h
      obtain ⟨h1, h2⟩ := h
      unfold validateSlots
      cases hg : get slot.id with
      | none =>
          obtain ⟨⟨fs, s2⟩, hrest⟩ := ih get s h2
          rw [hrest]
          exact ⟨_, rfl⟩
      | some v =>
          cases v with
          | arr ts =>
              rw [hg] at h1
              obtain ⟨⟨ts2, s2⟩, hts⟩ := coerceTasksList_total h1 s
              dsimp only
              rw [hts]
              dsimp only
              obtain ⟨⟨fs, s3⟩, hrest⟩ := ih get s2 h2
              rw [hrest]
              exact ⟨_, rfl⟩
          | null =>
              obtain ⟨⟨fs, s2⟩, hrest⟩ := ih get s h2
              rw [hrest]
              exact ⟨_, rfl⟩
          | bool b =>
              obtain ⟨⟨fs, s2⟩, hrest⟩ := ih get s h2
              rw [hrest]
              exact ⟨_, rfl⟩
          | num n =>
              obtain ⟨⟨fs, s2⟩, hrest⟩ := ih get s h2
              rw [hrest]
              exact ⟨_, rfl⟩
          | str s6 =>
              obtain ⟨⟨fs, s2⟩, hrest⟩ := ih get s h2
              rw [hrest]
              exact ⟨_, rfl⟩
          | obj fs6 =>
              obtain ⟨⟨fs, s2⟩, hrest⟩ := ih get s h2
              rw [hrest]
              exact ⟨_, rfl⟩

theorem migSchedRes_total {md3 : List (String × Json)}
    (h : scheduleFieldSafe md3 = true) (s1 : Nat) :
    ∃ out, migSchedRes md3 s1 = some out := by
  unfold migSchedRes
  unfold scheduleFieldSafe at h
  cases hl : alookup md3 "schedule" with
  | none => exact ⟨_, rfl⟩
  | some v =>
      rw [hl] at h
      cases v with
      | obj sfs => exact validateSlots_total allTimeSlots (alookup sfs) s1 h
      | arr xs =>
          apply validateSlots_total allTimeSlots _ s1
          simp only [List.all_eq_true]
          intro slot _
          cases hb : (slot.id == "length") with
          | true => simp [hb]
          | false => simp [hb]
      | null => exact ⟨_, rfl⟩
      | bool b => exact ⟨_, rfl⟩
      | num n => exact ⟨_, rfl⟩
      | str s6 => exact ⟨_, rfl⟩

theorem projectsFieldSafe_congr {fs gs : List (String × Json)}
    (h : alookup fs "projects" = alookup gs "projects") :
    projectsFieldSafe fs = projectsFieldSafe gs := by
  unfold projectsFieldSafe
  rw [h]

theorem scheduleFieldSafe_congr {fs gs : List (String × Json)}
    (h : alookup fs "schedule" = alookup gs "schedule") :
    scheduleFieldSafe fs = scheduleFieldSafe gs := by
  unfold scheduleFieldSafe
  rw [h]

theorem colorStage_props {md1 : List (String × Json)}
    (hp : projectsFieldSafe md1 = true) :
    ∃ md2, (match alookup md1 "projects" with
      | some (.arr ps) =>
          (colorFixList ps 0).map (fun ps2 => aset md1 "projects" (.arr ps2))
      | _ => some md1) = some md2 ∧ projectsFieldSafe md2 = true ∧
      alookup md2 "schedule" = alookup md1 "schedule" := by
  cases hpl : alookup md1 "projects" with
  | none => exact ⟨md1, rfl, hp, rfl⟩
  | some v =>
      cases v with
      | arr ps =>
          have hps : ps.all safeProjectElem = true := by
            unfold projectsFieldSafe at hp
            rw [hpl] at hp
            exact hp
          obtain ⟨ps2, hfix, hsafe2⟩ := colorFixList_total hps 0
          refine ⟨aset md1 "projects" (.arr ps2), ?_, ?_, ?_⟩
          · dsimp only
            rw [hfix]
            rfl
          · unfold projectsFieldSafe
            rw [alookup_aset_self]
            exact hsafe2
          · exact alookup_aset_ne _ _ (by decide)
      | null => exact ⟨md1, rfl, hp, rfl⟩
      | bool b => exact ⟨md1, rfl, hp, rfl⟩
      | num n => exact ⟨md1, rfl, hp, rfl⟩
      | str s6 => exact ⟨md1, rfl, hp, rfl⟩
      | obj fs6 => exact ⟨md1, rfl, hp, rfl⟩

theorem migVersionRepair_props {x : Json} (h1 : jsIsNull x = false)
    (h2 : projectsFieldSafe (jsSpread x) = true) :
    ∃ md2, migVersionRepair x = some md2 ∧ projectsFieldSafe md2 = true ∧
      alookup md2 "schedule" = alookup (jsSpread x) "schedule" := by
  obtain ⟨verv, hverv⟩ := jsMember_of_not_null h1 "version"
  unfold migVersionRepair
  rw [hverv]
  dsimp only
  by_cases hb : (match truthyOrD verv (Json.str "1.0.0") with
      | Json.str sv => sv == "1.0.0"
      | _ => false) = true
  · simp only [hb, if_true]
    by_cases hnum : isNumberField (alookup (jsSpread x) "nextColorIndex") = true
    · simp only [hnum, if_true]
      exact colorStage_props h2
    · have hnum2 : isNumberField (alookup (jsSpread x) "nextColorIndex") =
          false := by simpa using hnum
      simp only [hnum2, Bool.false_eq_true, if_false]
      have hproj : alookup (aset (jsSpread x) "nextColorIndex"
          (Json.num (Int.tmod (jsLengthOrZero (alookup (jsSpread x)
            "projects")) projectColors.length))) "projects" =
          alookup (jsSpread x) "projects" :=
        alookup_aset_ne _ _ (by decide)
      have hsched : alookup (aset (jsSpread x) "nextColorIndex"
          (Json.num (Int.tmod (jsLengthOrZero (alookup (jsSpread x)
            "projects")) projectColors.length))) "schedule" =
          alookup (jsSpread x) "schedule" :=
        alookup_aset_ne _ _ (by decide)
      obtain ⟨md2, hstage, hsafe, hsched2⟩ := colorStage_props
        (by rw [projectsFieldSafe_congr hproj]; exact h2)
      exact ⟨md2, hstage, hsafe, by rw [hsched2, hsched]⟩
  · have hb2 : (match truthyOrD verv (Json.str "1.0.0") with
        | Json.str sv => sv == "1.0.0"
        | _ => false) = false := by simpa using hb
    simp only [hb2, Bool.false_eq_true, if_false]
    exact ⟨_, rfl, h2, rfl⟩

theorem migrateData_total (x : Json) (s : Nat) (h : safeInput x = true) :
    ∃ y, migrateData x s = some y := by
  unfold safeInput at h
  simp only [Bool.and_eq_true, Bool.not_eq_true'] at h
  obtain ⟨⟨h1, h2⟩, h3⟩ := h
  obtain ⟨md2, hm, hpf, hsched⟩ := migVersionRepair_props h1 h2
  unfold migrateData
  rw [hm]
  dsimp only
  have hbase : (migBaseProjects md2).all safeProjectElem = true := by
    unfold migBaseProjects
    cases hl : alookup md2 "projects" with
    | none => exact getInitialProjects_safe
    | some v =>
        cases v with
        | arr ps =>
            unfold projectsFieldSafe at hpf
            rw [hl] at hpf
            exact hpf
        | null => exact getInitialProjects_safe
        | bool b => exact getInitialProjects_safe
        | num n => exact getInitialProjects_safe
        | str s6 => exact getInitialProjects_safe
        | obj fs6 => exact getInitialProjects_safe
  obtain ⟨⟨projs, s1⟩, hcp⟩ := coerceProjectsList_total hbase 0 s
  rw [hcp]
  dsimp only
  have hsf : scheduleFieldSafe (aset md2 "projects" (.arr projs)) = true := by
    rw [scheduleFieldSafe_congr (alookup_aset_ne _ _ (by decide)),
      scheduleFieldSafe_congr hsched]
    exact h3
  obtain ⟨⟨sched, s2⟩, hsc⟩ := migSchedRes_total hsf s1
  rw [hsc]
  exact ⟨_, rfl⟩

/-- C2 amended: migrate(raw) terminates without throwing and returns a
structurally valid bundle (projects an array of well-formed projects,
schedule mapping exactly the known slot ids to arrays of well-formed
tasks, numeric nextColorIndex, stamped version) for every JSON-parseable
input that is not null and carries no null entries at the coerced array
positions (project entries, their subTasks entries, the entries of a
slot-keyed task array, and their copied sub-task entries);
migrate(null) throws, duplicate ids are not deduplicated, and a stored
numeric nextColorIndex is kept even when negative. -/
theorem migrator_totality_amended_C2 (x : Json) (s : Nat)
    (h : safeInput x = true) :
    ∃ y, migrateData x s = some y ∧ canonicalBundle y = true := by
  obtain ⟨y, hy⟩ := migrateData_total x s h
  exact ⟨y, hy, migrateData_canonical hy⟩

theorem migrator_totality_amended_C2_witness :
    (safeInput (Json.obj [("projects", Json.str "not-an-array"),
       ("schedule", Json.null)]) = true ∧
     ∃ y, migrateData (Json.obj [("projects", Json.str "not-an-array"),
       ("schedule", Json.null)]) 0 = some y ∧ canonicalBundle y = true) ∧
    (safeInput (Json.obj [("version", Json.str "1.0.0"),
       ("projects", Json.arr [Json.str "ab", Json.arr [Json.num 1],
         Json.num 5])]) = true ∧
     ∃ y, migrateData (Json.obj [("version", Json.str "1.0.0"),
       ("projects", Json.arr [Json.str "ab", Json.arr [Json.num 1],
         Json.num 5])]) 0 = some y ∧ canonicalBundle y = true) :=
  ⟨⟨rfl, migrator_totality_amended_C2 _ 0 rfl⟩,
   ⟨rfl, migrator_totality_amended_C2 _ 0 rfl⟩⟩

/-! ## Sync Controller load path (lib/schedule-db.ts + loadData in
app/page.tsx, Supabase era)

The external world of the load path (authentication state, the two
localStorage keys, the per-user remote record, and whether the network
operations succeed) is modelled as an explicit environment; the functions
below mirror migrateLocalStorageToDatabase, getUserData, upsertUserData
and the loadData effect line by line.  A corrupt cell models a stored
string JSON.parse rejects. -/

/-- APP_DATA_VERSION of the Supabase-era page. -/
def APP_DATA_VERSION : String := "1.0.5"

/-- APP_VERSION_FOR_DATA of lib/schedule-db.ts. -/
def APP_VERSION_FOR_DATA : String := "1.0.5"

/-- One localStorage cell: absent, unparseable, or a parsed JSON value. -/
inductive StoredCell where
  | absent : StoredCell
  | corrupt : StoredCell
  | value (j : Json) : StoredCell

/-- The storage world visible to the load path. -/
structure StoreEnv where
  supabaseOk : Bool
  authed : Bool
  legacy : StoredCell
  userLocal : StoredCell
  remote : Option Json
  remoteReadOk : Bool
  upsertOk : Bool

/-- Result record of migrateLocalStorageToDatabase. -/
structure MigResult where
  success : Bool
  migratedBundle : Option Json

/-- Result record of getUserData. -/
structure GetResult where
  success : Bool
  dataBundle : Option Json

/-- The JSON form of getInitialUserBundle (app/page.tsx, Supabase era):
deep-copied default projects, empty schedule, nextColorIndex = default
project count mod palette size, fresh timestamps, current version. -/
def getInitialUserBundle (now : String) : Json :=
  .obj [("projects", .arr getInitialProjects),
        ("schedule", .obj getInitialSchedule),
        ("nextColorIndex",
          .num (Int.tmod initialProjectsData.length projectColors.length)),
        ("createdAt", .str now),
        ("updatedAt", .str now),
        ("appVersion", .str APP_DATA_VERSION)]

/-- The bundle actually written by upsertUserData:
`{...dataBundle, updatedAt: now, appVersion: APP_VERSION_FOR_DATA}`. -/
def upsertStamp (b : Json) (now : String) : Json :=
  setFieldJ (setFieldJ b "updatedAt" (.str now)) "appVersion"
    (.str APP_VERSION_FOR_DATA)

/-- upsertUserData from lib/schedule-db.ts: auth check, then an upsert of
the stamped bundle keyed by the user identity (one record per user). -/
def upsertUserData (env : StoreEnv) (now : String) (dataBundle : Json) :
    Bool × StoreEnv :=
  if env.supabaseOk && env.authed then
    (if env.upsertOk then
      (true, { env with remote := some (upsertStamp dataBundle now) })
    else (false, env))
  else (false, env)

/-- The `x && x.length > 0` test on the adapted projects value. -/
def jsLengthPos (v : Json) : Bool :=
  truthy v &&
    (match v with
     | .arr xs => xs.length != 0
     | .str s => s.length != 0
     | .obj fs =>
         (match alookup fs "length" with
          | some (.num n) => decide (0 < n)
          | _ => false)
     | _ => false)

/-- Object.keys(x).length for the adapted schedule value. -/
def jsKeysLen : Json → Nat
  | .obj fs => fs.length
  | .arr xs => xs.length
  | .str s => s.length
  | _ => 0

/-- The completeLocalBundle assembled by migrateLocalStorageToDatabase
from the parsed legacy payload: empty adapted fields fall back to the
initial defaults, timestamps are fresh. -/
def completeLocalBundle (parsedLocal : Json) (now : String) : Json :=
  let lbProjects := truthyOrD (jsMemberD parsedLocal "projects") (.arr [])
  let lbSchedule := truthyOrD (jsMemberD parsedLocal "schedule") (.obj [])
  let lbNextColorIndex :=
    truthyOrD (jsMemberD parsedLocal "nextColorIndex") (.num 0)
  let lbAppVersion :=
    truthyOrD (jsMemberD parsedLocal "version") (.str APP_VERSION_FOR_DATA)
  .obj [("projects",
          if jsLengthPos lbProjects then lbProjects
          else .arr getInitialProjects),
        ("schedule",
          if truthy lbSchedule && jsKeysLen lbSchedule != 0 then lbSchedule
          else .obj getInitialSchedule),
        ("nextColorIndex", lbNextColorIndex),
        ("createdAt", .str now),
        ("updatedAt", .str now),
        ("appVersion", lbAppVersion)]

/-- migrateLocalStorageToDatabase from lib/schedule-db.ts: skipped when
Supabase is unavailable, the user is unauthenticated, or the legacy key
is empty; a parse failure (or a null payload, whose member access throws
into the outer catch) fails; otherwise the adapted legacy bundle is
upserted to the remote store unconditionally (the remote contents are
never consulted) and the legacy key is removed on success. -/
def migrateLocalStorageToDatabase (env : StoreEnv) (now : String) :
    MigResult × StoreEnv :=
  if !env.supabaseOk then ({ success := true, migratedBundle := none }, env)
  else if !env.authed then ({ success := true, migratedBundle := none }, env)
  else
    match env.legacy with
    | .absent => ({ success := true, migratedBundle := none }, env)
    | .corrupt => ({ success := false, migratedBundle := none }, env)
    | .value parsedLocal =>
        match parsedLocal with
        | .null => ({ success := false, migratedBundle := none }, env)
        | _ =>
            let bundle := completeLocalBundle parsedLocal now
            match upsertUserData env now bundle with
            | (true, env2) =>
                ({ success := true, migratedBundle := some bundle },
                 { env2 with legacy := .absent })
            | (false, env2) =>
                ({ success := false, migratedBundle := none }, env2)

/-- getUserData from lib/schedule-db.ts: auth check, single-row read of
the user record ("not found" is success with no bundle, a read error is a
failure), a non-object payload is rejected, and a missing appVersion is
stamped before returning. -/
def getUserData (env : StoreEnv) : GetResult :=
  if env.supabaseOk && env.authed then
    (if env.remoteReadOk then
      match env.remote with
      | none => { success := true, dataBundle := none }
      | some d =>
          match d with
          | .obj _ =>
              if truthyOpt (jsMemberD d "appVersion") then
                { success := true, dataBundle := some d }
              else
                { success := true, dataBundle :=
                    some (setFieldJ d "appVersion" (.str APP_VERSION_FOR_DATA)) }
          | .arr _ =>
              if truthyOpt (jsMemberD d "appVersion") then
                { success := true, dataBundle := some d }
              else
                { success := true, dataBundle :=
                    some (setFieldJ d "appVersion" (.str APP_VERSION_FOR_DATA)) }
          | _ => { success := false, dataBundle := none }
    else { success := false, dataBundle := none })
  else { success := false, dataBundle := none }

/-- The timestamp/version backstop at the end of loadData: missing
createdAt, updatedAt or appVersion are filled in. -/
def ensureStamps (b : Json) (now : String) : Json :=
  let b1 := if truthyOpt (jsMemberD b "createdAt") then b
    else setFieldJ b "createdAt" (.str now)
  let b2 := if truthyOpt (jsMemberD b1 "updatedAt") then b1
    else setFieldJ b1 "updatedAt" (.str now)
  if truthyOpt (jsMemberD b2 "appVersion") then b2
  else setFieldJ b2 "appVersion" (.str APP_DATA_VERSION)

/-- The basic structural validation applied to the non-authenticated
localStorage bundle (a null payload throws into the catch, which also
yields no bundle). -/
def basicLocalValid (j : Json) : Bool :=
  match j with
  | .null => false
  | _ =>
      truthyOpt (jsMemberD j "projects") && truthyOpt (jsMemberD j "schedule") &&
        (jsMemberD j "nextColorIndex").isSome

/-- The loadData effect of ScheduleApp (app/page.tsx, Supabase era):
authenticated loads run the one-time migration first and use its bundle
when it produced one, only otherwise consulting the remote store; a
remote read failure sets the sync-error flag and leaves loadedBundle
empty (the Local stores are not consulted on this path); without an
authenticated Supabase session the user-local key is tried; a still-empty
result falls back to a fresh initial bundle, saved to the user-local key
only when unauthenticated.  Returns (loaded bundle, environment after,
sync-error flag). -/
def loadData (env : StoreEnv) (now : String) : Json × StoreEnv × Bool :=
  let step : Option Json × StoreEnv × Bool :=
    if env.authed && env.supabaseOk then
      let res := migrateLocalStorageToDatabase env now
      match (res.1).migratedBundle with
      | some b => (some b, res.2, !(res.1).success)
      | none =>
          let gr := getUserData res.2
          if gr.success then (gr.dataBundle, res.2, !(res.1).success)
          else (none, res.2, true)
    else
      match env.userLocal with
      | .value j =>
          if basicLocalValid j then (some j, env, false)
          else (none, env, false)
      | _ => (none, env, false)
  match step.1 with
  | some b => (ensureStamps b now, step.2.1, step.2.2)
  | none =>
      let b := getInitialUserBundle now
      if !env.authed then
        (ensureStamps b now, { step.2.1 with userLocal := .value b },
         step.2.2)
      else (ensureStamps b now, step.2.1, step.2.2)

/-! ## Claim C1: one-time migration vs existing remote data -/

/-- A legacy localStorage payload with one project and
nextColorIndex 7. -/
def LC1 : Json :=
  .obj [("projects", .arr [.obj [("id", .str "pL"),
          ("name", .str "Local Project"), ("subTasks", .arr []),
          ("color", .str "c")]]),
        ("schedule", .obj [("slot-morning-08", .arr [])]),
        ("nextColorIndex", .num 7)]

/-- The fields of an existing remote bundle with nextColorIndex 3. -/
def rfsC1 : List (String × Json) :=
  [("projects", .arr []), ("schedule", .obj []),
   ("nextColorIndex", .num 3), ("createdAt", .str "r0"),
   ("updatedAt", .str "r0"), ("appVersion", .str "1.0.5")]

/-- An existing remote bundle with nextColorIndex 3. -/
def RC1 : Json := .obj rfsC1

/-- An authenticated first load where the Remote store already holds a
bundle and the legacy Local key also holds one. -/
def envC1 : StoreEnv :=
  { supabaseOk := true, authed := true
    legacy := .value LC1, userLocal := .absent
    remote := some RC1, remoteReadOk := true, upsertOk := true }

/-- The nextColorIndex stored in the remote record of an environment. -/
def remoteNci (e : StoreEnv) : Option Json :=
  match e.remote with
  | some (.obj fs) => alookup fs "nextColorIndex"
  | _ => none

/-- The nextColorIndex field of a bundle value. -/
def bundleNci (b : Json) : Option Json :=
  match b with
  | .obj fs => alookup fs "nextColorIndex"
  | _ => none

/-- C1 counterexample: with a bundle already in Remote (nextColorIndex 3)
and a legacy Local bundle (nextColorIndex 7), the authenticated first
load does NOT skip the migration: the Remote record is overwritten by the
Local bundle, the Local copy is deleted, and the loaded bundle is the
migrated Local one, not the existing Remote one. -/
theorem migration_skip_C1_counterexample :
    remoteNci envC1 = some (.num 3) ∧
    remoteNci (loadData envC1 "t0").2.1 = some (.num 7) ∧
    bundleNci (loadData envC1 "t0").1 = some (.num 7) ∧
    (loadData envC1 "t0").2.1.legacy = StoredCell.absent ∧
    ¬ (Json.num 7 = Json.num 3) :=
  ⟨rfl, rfl, rfl, rfl, by simp⟩

/-- C1 amended: on an authenticated first load with Supabase available,
the migration fires whenever the legacy Local key holds parseable
non-null data, regardless of the Remote contents: the adapted Local
bundle is upserted to Remote (overwriting any existing record), the
legacy copy is deleted, and that bundle is the one loaded.  The existing
Remote bundle is loaded (and Remote left untouched) only when the legacy
Local key is absent. -/
theorem migration_firstwrite_amended_C1 :
    (∀ (env : StoreEnv) (now : String) (L : Json),
       env.authed = true → env.supabaseOk = true →
       env.legacy = StoredCell.value L → jsIsNull L = false →
       env.upsertOk = true →
       migrateLocalStorageToDatabase env now =
         ({ success := true,
            migratedBundle := some (completeLocalBundle L now) },
          { env with
              remote := some (upsertStamp (completeLocalBundle L now) now),
              legacy := .absent }) ∧
       loadData env now =
         (ensureStamps (completeLocalBundle L now) now,
          { env with
              remote := some (upsertStamp (completeLocalBundle L now) now),
              legacy := .absent },
          false)) ∧
    (∀ (env : StoreEnv) (now : String) (rfs : List (String × Json)),
       env.authed = true → env.supabaseOk = true →
       env.legacy = StoredCell.absent → env.remoteReadOk = true →
       env.remote = some (.obj rfs) →
       truthyOpt (alookup rfs "appVersion") = true →
       loadData env now = (ensureStamps (.obj rfs) now, env, false)) := by
  constructor
  · intro env now L ha hs hleg hnull hup
    have hmig : migrateLocalStorageToDatabase env now =
        ({ success := true,
           migratedBundle := some (completeLocalBundle L now) },
         { env with
             remote := some (upsertStamp (completeLocalBundle L now) now),
             legacy := .absent }) := by
      unfold migrateLocalStorageToDatabase
      rw [hs, ha, hleg]
      simp only [Bool.not_true, Bool.false_eq_true, if_false]
      cases L with
      | null => cases hnull
      | bool b => simp [upsertUserData, hs, ha, hup]
      | num n => simp [upsertUserData, hs, ha, hup]
      | str s5 => simp [upsertUserData, hs, ha, hup]
      | arr xs => simp [upsertUserData, hs, ha, hup]
      | obj fs => simp [upsertUserData, hs, ha, hup]
    refine ⟨hmig, ?_⟩
    unfold loadData
    simp only [ha, hs, Bool.and_self, if_true, hmig]
    simp [ha, hs]
  · intro env now rfs ha hs hleg hr hrem hver
    have hmig : migrateLocalStorageToDatabase env now =
        ({ success := true, migratedBundle := none }, env) := by
      unfold migrateLocalStorageToDatabase
      rw [hs, ha, hleg]
      simp
    have hget : getUserData env =
        ({ success := true, dataBundle := some (Json.obj rfs) } :
          GetResult) := by
      unfold getUserData
      rw [hs, ha, hr, hrem]
      have hv2 : truthyOpt (jsMemberD (Json.obj rfs) "appVersion") = true := by
        simpa [jsMemberD, jsMember] using hver
      simp [hv2]
    unfold loadData
    simp only [ha, hs, Bool.and_self, if_true, hmig, hget]
    simp

theorem migration_firstwrite_amended_C1_witness :
    (migrateLocalStorageToDatabase envC1 "t0" =
       ({ success := true,
          migratedBundle := some (completeLocalBundle LC1 "t0") },
        { envC1 with
            remote := some (upsertStamp (completeLocalBundle LC1 "t0") "t0"),
            legacy := .absent }) ∧
     loadData envC1 "t0" =
       (ensureStamps (completeLocalBundle LC1 "t0") "t0",
        { envC1 with
            remote := some (upsertStamp (completeLocalBundle LC1 "t0") "t0"),
            legacy := .absent },
        false)) ∧
    loadData { envC1 with legacy := .absent } "t0" =
      (ensureStamps (.obj rfsC1) "t0", { envC1 with legacy := .absent },
       false) :=
  ⟨migration_firstwrite_amended_C1.1 envC1 "t0" LC1 rfl rfl rfl rfl rfl,
   migration_firstwrite_amended_C1.2 { envC1 with legacy := .absent } "t0"
     rfsC1 rfl rfl rfl rfl rfl rfl⟩

/-! ## Claim C6: remote load failure -/

/-- An authenticated load environment whose remote read fails while the
user-local key still holds a valid bundle (nextColorIndex 9). -/
def envC6 : StoreEnv :=
  { supabaseOk := true, authed := true
    legacy := .absent
    userLocal := .value (.obj [("projects", .arr [.obj [("id", .str "pX"),
        ("name", .str "X"), ("subTasks", .arr []), ("color", .str "c")]]),
      ("schedule", .obj []), ("nextColorIndex", .num 9),
      ("createdAt", .str "l0"), ("updatedAt", .str "l0"),
      ("appVersion", .str "1.0.5")])
    remote := some RC1, remoteReadOk := false, upsertOk := true }

/-- C6 counterexample: when the authenticated Remote load fails, the
controller does NOT fall back to the Local store: although the user-local
key holds a valid bundle (nextColorIndex 9), the loaded bundle is the
fresh default one (nextColorIndex 4) and the sync-error flag is set. -/
theorem remote_failure_fallback_C6_counterexample :
    (match envC6.userLocal with
     | StoredCell.value j => bundleNci j
     | _ => none) = some (.num 9) ∧
    bundleNci (loadData envC6 "t0").1 = some (.num 4) ∧
    (loadData envC6 "t0").2.2 = true ∧
    ¬ (Json.num 4 = Json.num 9) :=
  ⟨rfl, rfl, rfl, by simp⟩

/-- C6 amended: when the Remote load fails with a network/auth error on
the authenticated path (and no legacy migration took place), the Sync
Controller sets the sync-error indicator and initializes with a fresh
default bundle; the Local store is not consulted — the result is the same
whatever the user-local key holds — and it is not overwritten. -/
theorem remote_failure_fallback_amended_C6 (env : StoreEnv) (now : String)
    (ha : env.authed = true) (hs : env.supabaseOk = true)
    (hleg : env.legacy = StoredCell.absent)
    (hr : env.remoteReadOk = false) :
    loadData env now =
      (ensureStamps (getInitialUserBundle now) now, env, true) := by
  have hmig : migrateLocalStorageToDatabase env now =
      ({ success := true, migratedBundle := none }, env) := by
    unfold migrateLocalStorageToDatabase
    rw [hs, ha, hleg]
    simp
  have hget : getUserData env =
      ({ success := false, dataBundle := none } : GetResult) := by
    unfold getUserData
    rw [hs, ha, hr]
    simp
  unfold loadData
  rw [ha, hs]
  simp only [Bool.and_self, if_true, hmig, hget, ha, Bool.not_true,
    Bool.false_eq_true, if_false]

theorem remote_failure_fallback_amended_C6_witness :
    loadData envC6 "t0" =
      (ensureStamps (getInitialUserBundle "t0") "t0", envC6, true) :=
  remote_failure_fallback_amended_C6 envC6 "t0" rfl rfl rfl rfl

/-! ## Debounced persistence (app/page.tsx, Supabase era)

The debounce helper keeps at most one pending timer: every call clears
the previous timer and schedules func with the latest arguments waitFor
milliseconds later.  The auto-save effect invokes the debounced
upsertUserData with the current bundle after every state change, so the
call sequence carries the post-mutation bundle states.  The event
semantics below replays a time-stamped call sequence: a pending call
fires when the next call arrives at or after its deadline (there is no
call in between to clear it), and the last pending call fires after
quiescence. -/

/-- Replay of the debounced call sequence from a pending call: the Nat is
the time the pending call was made; emitted payloads are the writes the
timer fires. -/
def debounceGo {α : Type u} (wait : Nat) : α × Nat → List (α × Nat) → List α
  | pending, [] => [pending.1]
  | pending, c :: rest =>
      if pending.2 + wait ≤ c.2 then pending.1 :: debounceGo wait c rest
      else debounceGo wait c rest

/-- The writes emitted by the debounced function over a time-stamped call
sequence (times non-decreasing), assuming quiescence after the last
call. -/
def debounceRun {α : Type u} (wait : Nat) : List (α × Nat) → List α
  | [] => []
  | c :: rest => debounceGo wait c rest

/-- DEBOUNCE_WAIT: the 2-second interval of debouncedUpsertUserData. -/
def DEBOUNCE_WAIT : Nat := 2000

/-- Sequential application of mutations (each a bundle transformer). -/
def applySeq (muts : List (UserScheduleBundle → UserScheduleBundle))
    (b : UserScheduleBundle) : UserScheduleBundle :=
  muts.foldl (fun x f => f x) b

/-- The sequence of post-mutation states: state i is the bundle after the
first i+1 mutations; the auto-save effect hands exactly these states to
the debounced writer. -/
def statesAfter (b : UserScheduleBundle) :
    List (UserScheduleBundle → UserScheduleBundle) →
    List UserScheduleBundle
  | [] => []
  | f :: fs => f b :: statesAfter (f b) fs

/-- The payload of the last call of a nonempty pending/call sequence. -/
def lastPayload {α : Type u} (pending : α × Nat) : List (α × Nat) → α
  | [] => pending.1
  | c :: rest => lastPayload c rest

theorem debounceGo_all_cancelled {α : Type u} (wait : Nat) :
    ∀ (calls : List (α × Nat)) (pending : α × Nat),
      List.Chain' (fun c c2 : α × Nat => c2.2 < c.2 + wait)
        (pending :: calls) →
      debounceGo wait pending calls = [lastPayload pending calls] := by
  intro calls
  induction calls with
  | nil => intro pending _; rfl
  | cons c rest ih =>
      intro pending hchain
      rw [List.chain'_cons] at hchain
      obtain ⟨hlt, hchain2⟩ := hchain
      unfold debounceGo
      rw [if_neg (by omega)]
      exact ih c hchain2

theorem statesAfter_length (muts : List (UserScheduleBundle →
    UserScheduleBundle)) : ∀ b, (statesAfter b muts).length = muts.length := by
  induction muts with
  | nil => intro b; rfl
  | cons f fs ih => intro b; simp [statesAfter, ih]

theorem lastPayload_statesAfter
    (muts : List (UserScheduleBundle → UserScheduleBundle)) :
    ∀ (b1 : UserScheduleBundle) (t1 : Nat) (times : List Nat)
      (b : UserScheduleBundle),
      times.length = muts.length →
      lastPayload (b1, t1) ((statesAfter b1 muts).zip times) =
        applySeq muts b1 := by
  induction muts with
  | nil =>
      intro b1 t1 times b hlen
      cases times with
      | nil => rfl
      | cons t ts => cases hlen
  | cons f fs ih =>
      intro b1 t1 times b hlen
      cases times with
      | nil => cases hlen
      | cons t ts =>
          simp only [statesAfter, List.zip_cons_cons, lastPayload]
          have hlen2 : ts.length = fs.length := by
            simpa using hlen
          exact ih (f b1) t ts b hlen2

/-! ## Claim C8: debounce collapse -/

/-- C8: for every nonempty sequence of mutations on the authenticated
path whose auto-save calls each arrive strictly less than the 2-second
debounce interval after the previous one, exactly one backend write is
emitted after quiescence, and it carries the bundle state after the last
mutation; no intermediate state is written. -/
theorem chain_snd_zip {α : Type u} (wait : Nat) :
    ∀ (bs : List α) (ts : List Nat) (b : α) (t : Nat),
      ts.length = bs.length →
      List.Chain' (fun x y : Nat => y < x + wait) (t :: ts) →
      List.Chain' (fun c c2 : α × Nat => c2.2 < c.2 + wait)
        ((b, t) :: bs.zip ts) := by
  intro bs
  induction bs with
  | nil =>
      intro ts b t hlen _
      cases ts with
      | nil => simp
      | cons t2 ts2 => cases hlen
  | cons b2 rest ih =>
      intro ts b t hlen hch
      cases ts with
      | nil => cases hlen
      | cons t2 ts2 =>
          rw [List.zip_cons_cons, List.chain'_cons]
          rw [List.chain'_cons] at hch
          exact ⟨hch.1, ih ts2 b2 t2 (by simpa using hlen) hch.2⟩

theorem debounce_collapse_C8
    (muts : List (UserScheduleBundle → UserScheduleBundle))
    (times : List Nat) (b0 : UserScheduleBundle)
    (hne : muts ≠ [])
    (hlen : times.length = muts.length)
    (hgap : List.Chain' (fun t t2 : Nat => t2 < t + DEBOUNCE_WAIT) times) :
    debounceRun DEBOUNCE_WAIT ((statesAfter b0 muts).zip times) =
      [applySeq muts b0] := by
  cases muts with
  | nil => exact absurd rfl hne
  | cons f fs =>
      cases times with
      | nil => cases hlen
      | cons t ts =>
          simp only [statesAfter, List.zip_cons_cons, debounceRun]
          have hlen2 : ts.length = fs.length := by simpa using hlen
          have hlen3 : ts.length = (statesAfter (f b0) fs).length := by
            rw [statesAfter_length fs (f b0)]
            exact hlen2
          have hchain := chain_snd_zip DEBOUNCE_WAIT
            (statesAfter (f b0) fs) ts (f b0) t hlen3 hgap
          rw [debounceGo_all_cancelled DEBOUNCE_WAIT _ _ hchain]
          rw [lastPayload_statesAfter fs (f b0) t ts b0 hlen2]
          rfl

/-- A small bundle for exercising the debounce collapse. -/
def bW8 : UserScheduleBundle :=
  { projects := [], schedule := [], nextColorIndex := 0
    createdAt := "c", updatedAt := "u", appVersion := "1.0.5" }

theorem debounce_collapse_C8_witness :
    debounceRun DEBOUNCE_WAIT
      ((statesAfter bW8
        [ fun b => { b with nextColorIndex := b.nextColorIndex + 1 }
        , fun b => { b with nextColorIndex := b.nextColorIndex + 2 } ]).zip
        [0, 1500]) =
      [applySeq
        [ fun b => { b with nextColorIndex := b.nextColorIndex + 1 }
        , fun b => { b with nextColorIndex := b.nextColorIndex + 2 } ] bW8] :=
  debounce_collapse_C8
    [ fun b => { b with nextColorIndex := b.nextColorIndex + 1 }
    , fun b => { b with nextColorIndex := b.nextColorIndex + 2 } ]
    [0, 1500] bW8 (List.cons_ne_nil _ _) rfl
    (by norm_num [List.chain'_cons, DEBOUNCE_WAIT])
